/-
Verification of the resumable stage pipeline of the Article-Generator
repository (src/src/checkpoint_manager.py, src/src/crew_manager.py,
src/config.py), as a shallow embedding in Lean 4.

Modelling conventions:
* Python dicts become function maps `String → Option α` (`mset`/`mdel`
  below); keys in the real dicts are unique, so lookup-level semantics
  coincide.
* Python truthiness of optional strings (`if not self.current_topic`,
  `topic or self.current_topic`, `if context_output`) is modelled
  explicitly by `pyTruthy` / `ctxArg`: `None` and `""` are falsy.
* The wall-clock `timestamp` field of a checkpoint is carried nowhere in
  the program logic and is omitted from the model.
* The regular-expression passes of `CrewManager._clean_output` are
  implemented operationally with `re.sub` leftmost, non-overlapping
  semantics (`<think>.*?</think>` non-greedy with DOTALL|IGNORECASE,
  `</?think>` with IGNORECASE, `\n{3,} → \n\n` greedy), with ASCII
  case-insensitivity (exotic Unicode case foldings are outside the model),
  and `str.strip()` strips the ASCII whitespace characters.
* The external stage executor (`agent.execute_task`) is an oracle
  `Exec : String → Option String → ExecResult`: given the task name and
  the (truthy) context that the code passes, it returns raw output or
  raises a `RateLimitError` or any other exception.
* The `tenacity` retry decorator on `run_with_retry`
  (`stop_after_attempt`, `wait_exponential(multiplier, min, max)`,
  `retry_if_exception_type(RateLimitError)`) is embedded by `retryFrom`
  following tenacity's documented semantics: the wait after failed
  attempt `a` is `max(min_wait, min(multiplier * 2 ^ (a - 1), max_wait))`.
-/
import Mathlib

set_option linter.unusedVariables false

/-! ## Function maps standing for Python dicts -/

/-- Dict assignment `m[k] = v`. -/
def mset (m : String → Option α) (k : String) (v : α) : String → Option α :=
  fun q => if q = k then some v else m q

/-- Dict deletion `del m[k]`. -/
def mdel (m : String → Option α) (k : String) : String → Option α :=
  fun q => if q = k then none else m q

/-! ## Python truthiness of optional strings -/

/-- Truthiness of `Optional[str]`: `None` and `""` are falsy. -/
def pyTruthy : Option String → Bool
  | none => false
  | some s => if s = "" then false else true

/-! ## CheckpointManager (src/src/checkpoint_manager.py) -/

/-- One saved checkpoint: the dict
`{'output': ..., 'agent': ..., 'completed': True}` (timestamp omitted,
it is never read by the program logic). -/
structure Checkpoint where
  output : String
  agent : Option String
  completed : Bool
deriving DecidableEq

/-- The `CheckpointManager` object state: `checkpoints : topic → task →
checkpoint` plus the active topic. -/
structure CM where
  checkpoints : String → Option (String → Option Checkpoint)
  current_topic : Option String

/-- `CheckpointManager.__init__`. -/
def CM.init : CM := ⟨fun _ => none, none⟩

/-- `CheckpointManager.set_topic`. -/
def CM.set_topic (cm : CM) (topic : String) : CM :=
  { checkpoints :=
      (match cm.checkpoints topic with
       | some _ => cm.checkpoints
       | none => mset cm.checkpoints topic (fun _ => none)),
    current_topic := some topic }

/-- `CheckpointManager.save_checkpoint`: a silent no-op when the current
topic is falsy; otherwise inserts/replaces the task's entry with
`completed = True`. -/
def CM.save_checkpoint (cm : CM) (task_name : String) (output : String)
    (agent_name : Option String) : CM :=
  match cm.current_topic with
  | none => cm
  | some t =>
    if t = "" then cm
    else
      let tmap := (cm.checkpoints t).getD (fun _ => none)
      { cm with checkpoints := (mset cm.checkpoints t
          (mset tmap task_name ⟨output, agent_name, true⟩)) }

/-- `CheckpointManager.get_checkpoint`. -/
def CM.get_checkpoint (cm : CM) (task_name : String) : Option Checkpoint :=
  match cm.current_topic with
  | none => none
  | some t =>
    if t = "" then none
    else
      match cm.checkpoints t with
      | none => none
      | some m => m task_name

/-- `CheckpointManager.has_checkpoint`: the checkpoint exists and its
`completed` flag is truthy. -/
def CM.has_checkpoint (cm : CM) (task_name : String) : Bool :=
  match cm.current_topic with
  | none => false
  | some t =>
    if t = "" then false
    else
      match cm.checkpoints t with
      | none => false
      | some m =>
        match m task_name with
        | none => false
        | some c => c.completed

/-- `CheckpointManager.clear_checkpoints(topic=None)`: the target is
`topic or self.current_topic` (Python truthiness); deletes the target
topic's whole entry when present. -/
def CM.clear_checkpoints (cm : CM) (topic : Option String) : CM :=
  let target : Option String :=
    match topic with
    | some s => if s = "" then cm.current_topic else some s
    | none => cm.current_topic
  match target with
  | none => cm
  | some t =>
    if t = "" then cm
    else
      match cm.checkpoints t with
      | some _ => { cm with checkpoints := mdel cm.checkpoints t }
      | none => cm

/-- `CheckpointManager.clear_all_checkpoints`. -/
def CM.clear_all_checkpoints (cm : CM) : CM := ⟨fun _ => none, none⟩

/-- The fixed stage sequence of the pipeline. -/
def task_order : List String := ["plan", "write", "edit"]

/-- `data.get('completed')` truthiness for the entry of `task` in the
topic map `m`; membership of `task` in the `completed_tasks`
comprehension of `get_latest_completed_task`. -/
def completedIn (m : String → Option Checkpoint) (task : String) : Bool :=
  match m task with
  | none => false
  | some c => c.completed

/-- The `for task in reversed(task_order)` loop of
`get_latest_completed_task`. -/
def latestLoop (m : String → Option Checkpoint) : List String → Option String
  | [] => none
  | t :: ts => if completedIn m t then some t else latestLoop m ts

/-- `CheckpointManager.get_latest_completed_task`. -/
def CM.get_latest_completed_task (cm : CM) : Option String :=
  match cm.current_topic with
  | none => none
  | some t =>
    if t = "" then none
    else
      match cm.checkpoints t with
      | none => none
      | some m => latestLoop m task_order.reverse

/-- Topic-indexed checkpoint presence (what `has_checkpoint` reports once
`topic` is the active topic): used to state frame and invariant claims
about arbitrary topics. -/
def hasFor (cm : CM) (topic task : String) : Bool :=
  match cm.checkpoints topic with
  | none => false
  | some m => completedIn m task

/-- Topic-indexed checkpoint lookup. -/
def getFor (cm : CM) (topic task : String) : Option Checkpoint :=
  match cm.checkpoints topic with
  | none => none
  | some m => m task

/-! ## Output sanitizer (`CrewManager._clean_output`)

The three `re.sub` passes and the final `str.strip()` are implemented
operationally with the leftmost, non-overlapping match semantics of
`re.sub`.  Recursion is structural on a fuel bounded by the input length,
so everything computes by kernel reduction. -/

/-- ASCII case-insensitive character match against a fixed pattern
character `p` (the pattern characters here are lowercase letters and the
symbols `<`, `/`, `>`): `re.IGNORECASE` lets an input character match a
lowercase pattern letter also in its uppercase form. -/
def ciEq (p c : Char) : Bool :=
  c = p || (('a' ≤ p && p ≤ 'z') && c.toNat + 32 = p.toNat)

/-- `matchesCI pat l`: `l` starts with the pattern `pat`, ASCII
case-insensitively. -/
def matchesCI : List Char → List Char → Bool
  | [], _ => true
  | _ :: _, [] => false
  | p :: ps, c :: cs => ciEq p c && matchesCI ps cs

/-- The open marker `<think>`. -/
def thinkOpen : List Char := ['<', 't', 'h', 'i', 'n', 'k', '>']

/-- The close marker `</think>`. -/
def thinkClose : List Char := ['<', '/', 't', 'h', 'i', 'n', 'k', '>']

/-- Scan for the first (case-insensitive) occurrence of `</think>`; when
found, return the remainder after it.  This is the non-greedy `.*?` of
`r'<think>.*?</think>'` under DOTALL. -/
def dropAfterClose : List Char → Option (List Char)
  | [] => none
  | c :: cs =>
    if matchesCI thinkClose (c :: cs) then some (List.drop 7 cs)
    else dropAfterClose cs

/-- Fuelled pass 1: `re.sub(r'<think>.*?</think>', '', text,
flags=DOTALL|IGNORECASE)`.  At each position: if a full delimited block
starts here, delete it and continue after it; otherwise keep the
character.  An open marker with no later close marker starts no match and
is kept by this pass. -/
def subThinkF : Nat → List Char → List Char
  | 0, l => l
  | _ + 1, [] => []
  | f + 1, c :: cs =>
    if matchesCI thinkOpen (c :: cs) then
      match dropAfterClose (List.drop 6 cs) with
      | some rest => subThinkF f rest
      | none => c :: subThinkF f cs
    else c :: subThinkF f cs

def subThink (l : List Char) : List Char := subThinkF l.length l

/-- Fuelled pass 2: `re.sub(r'</?think>', '', text, flags=IGNORECASE)`. -/
def subTagsF : Nat → List Char → List Char
  | 0, l => l
  | _ + 1, [] => []
  | f + 1, c :: cs =>
    if matchesCI thinkClose (c :: cs) then subTagsF f (List.drop 7 cs)
    else if matchesCI thinkOpen (c :: cs) then subTagsF f (List.drop 6 cs)
    else c :: subTagsF f cs

def subTags (l : List Char) : List Char := subTagsF l.length l

/-- Length of the leading run of newline characters. -/
def nlRun : List Char → Nat
  | [] => 0
  | c :: cs => if c = '\n' then nlRun cs + 1 else 0

/-- Fuelled pass 3: `re.sub(r'\n{3,}', '\n\n', text)` — a maximal run of
three or more newlines becomes exactly two. -/
def subNLF : Nat → List Char → List Char
  | 0, l => l
  | _ + 1, [] => []
  | f + 1, c :: cs =>
    if c = '\n' && 3 ≤ nlRun (c :: cs) then
      '\n' :: '\n' :: subNLF f (List.drop (nlRun cs) cs)
    else c :: subNLF f cs

def subNL (l : List Char) : List Char := subNLF l.length l

/-- The whitespace characters stripped by `str.strip()` (ASCII range). -/
def isPyWs (c : Char) : Bool :=
  c = ' ' || c = '\t' || c = '\n' || c = '\r' || c = '\x0b' || c = '\x0c'

/-- `str.strip()`. -/
def pyStrip (l : List Char) : List Char :=
  ((l.dropWhile isPyWs).reverse.dropWhile isPyWs).reverse

/-- `CrewManager._clean_output` on the character list. -/
def cleanChars (l : List Char) : List Char :=
  pyStrip (subNL (subTags (subThink l)))

/-- `CrewManager._clean_output`. -/
def clean_output (s : String) : String :=
  (cleanChars s.toList).asString

/-! ## Stage execution (`CrewManager`) -/

/-- Error classification of a raised executor exception:
`litellm.exceptions.RateLimitError` versus everything else. -/
inductive ErrKind where
  | rateLimited
  | fatal
deriving DecidableEq

/-- One `agent.execute_task` call: raw output or a raised exception. -/
inductive ExecResult where
  | ok (raw : String)
  | err (e : ErrKind)
deriving DecidableEq

/-- The external stage-executor oracle: task name and the context
argument actually passed (`none` when the call omits `context`). -/
def Exec := String → Option String → ExecResult

/-- Agent roles (`agent.role`), used as the checkpoint's `agent` field. -/
def plannerRole : String := "Content Strategist & Story Architect"

def writerRole : String := "Narrative Writer"

def editorRole : String := "Story Editor"

/-- `if context_output:` — the context keyword argument is only passed
when the given context string is truthy. -/
def ctxArg : Option String → Option String
  | none => none
  | some c => if c = "" then none else some c

/-- A recorded executor invocation: task name and passed context. -/
abbrev Call := String × Option String

deriving instance DecidableEq for Except

/-- Result of one (attempt of) `run_with_retry`: the final
`CheckpointManager` state, the executor invocations in order, and the
returned output or raised error. -/
structure RunOutcome where
  state : CM
  calls : List Call
  result : Except ErrKind String

/-- `CrewManager._execute_task_with_checkpoint`: invoke the executor; on
success clean the output, save it as a checkpoint under the agent's role
and return it; a raised exception propagates (the `RateLimitError`
handler re-raises). -/
def execute_task_with_checkpoint (cm : CM) (exec : Exec) (task_name : String)
    (role : String) (context_output : Option String) :
    CM × Call × Except ErrKind String :=
  let ctx := ctxArg context_output
  match exec task_name ctx with
  | .ok raw =>
    let cleaned := clean_output raw
    (cm.save_checkpoint task_name cleaned (some role), (task_name, ctx), .ok cleaned)
  | .err e => (cm, (task_name, ctx), .error e)

/-- Stored output of a checkpoint read by
`get_checkpoint(task)['output']` (guarded by `has_checkpoint`). -/
def storedOutput (cm : CM) (task : String) : String :=
  ((cm.get_checkpoint task).map Checkpoint.output).getD ""

/-- Topic-indexed stored output, for stating claims about arbitrary
pre-run states. -/
def outFor (cm : CM) (topic task : String) : String :=
  ((getFor cm topic task).map Checkpoint.output).getD ""

/-- The edit step of `run_with_retry`: use the checkpoint if present,
else execute with the write output as context; return the edit output. -/
def run_from_edit (cm : CM) (calls : List Call) (write_output : String)
    (exec : Exec) : RunOutcome :=
  if cm.has_checkpoint "edit" then
    ⟨cm, calls, .ok (storedOutput cm "edit")⟩
  else
    match execute_task_with_checkpoint cm exec "edit" editorRole (some write_output) with
    | (cm1, call, .ok out) => ⟨cm1, calls ++ [call], .ok out⟩
    | (cm1, call, .error e) => ⟨cm1, calls ++ [call], .error e⟩

/-- The write step of `run_with_retry`: use the checkpoint if present,
else execute with the plan output as context; then the edit step. -/
def run_from_write (cm : CM) (calls : List Call) (plan_output : String)
    (exec : Exec) : RunOutcome :=
  if cm.has_checkpoint "write" then
    run_from_edit cm calls (storedOutput cm "write") exec
  else
    match execute_task_with_checkpoint cm exec "write" writerRole (some plan_output) with
    | (cm1, call, .ok out) => run_from_edit cm1 (calls ++ [call]) out exec
    | (cm1, call, .error e) => ⟨cm1, calls ++ [call], .error e⟩

/-- The entry steps of `run_with_retry`: `set_topic(topic)`, then on
`force_restart` `clear_checkpoints(topic)`. -/
def preRun (cm : CM) (topic : String) (force_restart : Bool) : CM :=
  let cm0 := cm.set_topic topic
  if force_restart then cm0.clear_checkpoints (some topic) else cm0

/-- The plan stage of `run_with_retry` followed by the rest of the
sequence. -/
def runStages (cm1 : CM) (exec : Exec) : RunOutcome :=
  if cm1.has_checkpoint "plan" then
    run_from_write cm1 [] (storedOutput cm1 "plan") exec
  else
    match execute_task_with_checkpoint cm1 exec "plan" plannerRole none with
    | (cm2, call, .ok out) => run_from_write cm2 [call] out exec
    | (cm2, call, .error e) => ⟨cm2, [call], .error e⟩

/-- One attempt of `CrewManager.run_with_retry` (the decorated method
body): set the topic, clear its checkpoints on `force_restart`, then run
the plan/write/edit sequence with per-stage checkpoint skipping.  Both
`except` handlers re-raise, so errors propagate with the state saved so
far. -/
def run_with_retry_body (cm : CM) (topic : String) (force_restart : Bool)
    (exec : Exec) : RunOutcome :=
  runStages (preRun cm topic force_restart) exec

/-! ## Retry policy (tenacity decorator on `run_with_retry`, with the
constants of src/config.py) -/

def RETRY_MULTIPLIER : Nat := 2

def RETRY_MIN_WAIT : Nat := 4

def RETRY_MAX_WAIT : Nat := 120

def RETRY_MAX_ATTEMPTS : Nat := 5

/-- tenacity `wait_exponential(multiplier=2, min=4, max=120)`: the wait
after failed attempt `a` is
`max(min, min(multiplier * exp_base ^ (a - 1), max))` with
`exp_base = 2`. -/
def tenacity_wait (attempt : Nat) : Nat :=
  max RETRY_MIN_WAIT (min (RETRY_MULTIPLIER * 2 ^ (attempt - 1)) RETRY_MAX_WAIT)

/-- The retry loop of the decorator, from attempt number `attempt` with
`fuel` attempts remaining (`fuel = RETRY_MAX_ATTEMPTS - attempt + 1`
throughout): run the body; on success return; on a `RateLimitError`
retry after `tenacity_wait attempt` seconds unless
`stop_after_attempt(RETRY_MAX_ATTEMPTS)` stops; on any other exception
re-raise immediately (`retry_if_exception_type(RateLimitError)`).
`exec k` is the executor's behavior during attempt `k`; the manager
state persists across attempts.  The outcome records the final state and
result, the number of the last attempt made, and the backoff waits in
order. -/
def retryFrom (topic : String) (force_restart : Bool) (exec : Nat → Exec) :
    Nat → Nat → CM → CM × Except ErrKind String × Nat × List Nat
  | 0, attempt, cm => (cm, .error .rateLimited, attempt - 1, [])
  | fuel + 1, attempt, cm =>
    let o := run_with_retry_body cm topic force_restart (exec attempt)
    match o.result with
    | .ok s => (o.state, .ok s, attempt, [])
    | .error e =>
      if e = ErrKind.rateLimited then
        if RETRY_MAX_ATTEMPTS ≤ attempt then (o.state, .error e, attempt, [])
        else
          let rest := retryFrom topic force_restart exec fuel (attempt + 1) o.state
          (rest.1, rest.2.1, rest.2.2.1, tenacity_wait attempt :: rest.2.2.2)
      else (o.state, .error e, attempt, [])

/-- `run_with_retry` as called from outside: the tenacity-decorated
method, starting at attempt 1. -/
def run_with_retry (cm : CM) (topic : String) (force_restart : Bool)
    (exec : Nat → Exec) : CM × Except ErrKind String × Nat × List Nat :=
  retryFrom topic force_restart exec RETRY_MAX_ATTEMPTS 1 cm

/-- State of the manager before attempt `k + 1` (attempts are numbered
from 1; `attemptState cm topic force exec 0 = cm`). -/
def attemptState (cm : CM) (topic : String) (force_restart : Bool)
    (exec : Nat → Exec) : Nat → CM
  | 0 => cm
  | k + 1 =>
    (run_with_retry_body (attemptState cm topic force_restart exec k) topic
      force_restart (exec (k + 1))).state

/-- Spec-side definition, following the spec's words (§4.1):
`latestCompletedStage(topic, orderedStageSequence)` scans the sequence in
reverse and returns the first stage with a completed checkpoint.  It is
compared against the source-translated `get_latest_completed_task`. -/
def latestCompletedStage (cm : CM) : Option String :=
  task_order.reverse.find? (fun stage => cm.has_checkpoint stage)

/-! ## Sample states and executors used by witnesses -/

def demoExec : Exec := fun task _ => ExecResult.ok (task ++ " raw")

def failWriteExec (e : ErrKind) : Exec := fun task _ =>
  if task = "write" then ExecResult.err e else ExecResult.ok (task ++ " raw")

def cmPlanOnly : CM :=
  (CM.init.set_topic "A").save_checkpoint "plan" "the plan" (some plannerRole)

def cmAll : CM :=
  (cmPlanOnly.save_checkpoint "write" "the draft" (some writerRole)).save_checkpoint
    "edit" "the article" (some editorRole)

def cmAB : CM :=
  (cmAll.set_topic "B").save_checkpoint "plan" "plan B" (some plannerRole)

/-- The stage-ordering invariant of the store: for every topic, a
completed `write` checkpoint implies a completed `plan` one, and a
completed `edit` checkpoint implies a completed `write` one. -/
def StoreInv (cm : CM) : Prop :=
  ∀ tp : String,
    (hasFor cm tp "write" = true → hasFor cm tp "plan" = true) ∧
      (hasFor cm tp "edit" = true → hasFor cm tp "write" = true)

/-- Store states produced only by runs and clears (and topic switches)
from the initial empty store; error-aborted runs are included because
`run_with_retry_body` is quantified over every executor behavior, so its
final states range over all mid-run states as well. -/
inductive Reachable : CM → Prop where
  | init : Reachable CM.init
  | run : ∀ cm topic force exec, Reachable cm →
      Reachable (run_with_retry_body cm topic force exec).state
  | clear : ∀ cm topic, Reachable cm → Reachable (cm.clear_checkpoints topic)
  | clearAll : ∀ cm, Reachable cm → Reachable cm.clear_all_checkpoints
  | setTopic : ∀ cm topic, Reachable cm → Reachable (cm.set_topic topic)

/-- The wait formula as the claim states it (the spec's words):
`min(max_wait, min_wait * multiplier^(attempt-1))`.  Compared against
the decorator's actual `tenacity_wait`. -/
def specWait (attempt : Nat) : Nat :=
  min RETRY_MAX_WAIT (RETRY_MIN_WAIT * RETRY_MULTIPLIER ^ (attempt - 1))

@[simp] theorem mset_same (m : String → Option α) (k : String) (v : α) :
    mset m k v k = some v := by simp [mset]

@[simp] theorem mset_other (m : String → Option α) (k q : String) (v : α)
    (h : q ≠ k) : mset m k v q = m q := by simp [mset, h]

@[simp] theorem mdel_same (m : String → Option α) (k : String) :
    mdel m k k = none := by simp [mdel]

@[simp] theorem mdel_other (m : String → Option α) (k q : String)
    (h : q ≠ k) : mdel m k q = m q := by simp [mdel, h]

@[simp] theorem pyTruthy_none : pyTruthy none = false := rfl

theorem pyTruthy_some (s : String) (h : s ≠ "") :
    pyTruthy (some s) = true := by simp [pyTruthy, h]

theorem dropAfterClose_length :
    ∀ l r, dropAfterClose l = some r → r.length ≤ l.length := by
  intro l
  induction l with
  | nil => intro r h; simp [dropAfterClose] at h
  | cons c cs ih =>
    intro r h
    by_cases hm : matchesCI thinkClose (c :: cs) = true
    · simp [dropAfterClose, hm] at h
      subst h
      simp [List.length_drop]
      omega
    · simp [dropAfterClose, hm] at h
      have := ih r h
      simp
      omega

/-! ## Store-operation lemmas -/

@[simp] theorem set_topic_current (cm : CM) (t : String) :
    (cm.set_topic t).current_topic = some t := rfl

@[simp] theorem save_current (cm : CM) (task out : String) (ag : Option String) :
    (cm.save_checkpoint task out ag).current_topic = cm.current_topic := by
  unfold CM.save_checkpoint
  rcases hc : cm.current_topic with _ | t
  · simp [hc]
  · by_cases ht : t = "" <;> simp [hc, ht]

/-- The result of `clear_checkpoints` is `cm` itself or `cm` with one
topic entry deleted; in particular most frame facts follow by cases. -/
theorem clear_checkpoints_cases (cm : CM) (topic : Option String) :
    cm.clear_checkpoints topic = cm ∨
      ∃ t, t ≠ "" ∧ cm.clear_checkpoints topic =
        { cm with checkpoints := mdel cm.checkpoints t } := by
  unfold CM.clear_checkpoints
  rcases topic with _ | s
  · rcases hc : cm.current_topic with _ | t
    · exact Or.inl rfl
    · by_cases ht : t = ""
      · simp [ht]
      · rcases hm : cm.checkpoints t with _ | m
        · simp [ht, hm]
        · exact Or.inr ⟨t, ht, by simp [ht, hm]⟩
  · by_cases hs : s = ""
    · rcases hc : cm.current_topic with _ | t
      · exact Or.inl (by simp [hs])
      · by_cases ht : t = ""
        · simp [hs, ht]
        · rcases hm : cm.checkpoints t with _ | m
          · simp [hs, ht, hm]
          · exact Or.inr ⟨t, ht, by simp [hs, ht, hm]⟩
    · rcases hm : cm.checkpoints s with _ | m
      · simp [hs, hm]
      · exact Or.inr ⟨s, hs, by simp [hs, hm]⟩

@[simp] theorem clear_current (cm : CM) (topic : Option String) :
    (cm.clear_checkpoints topic).current_topic = cm.current_topic := by
  rcases clear_checkpoints_cases cm topic with h | ⟨t, _, h⟩ <;> rw [h]

theorem set_topic_lookup (cm : CM) (t q : String) (hq : q ≠ t) :
    (cm.set_topic t).checkpoints q = cm.checkpoints q := by
  unfold CM.set_topic
  rcases hm : cm.checkpoints t with _ | m <;> simp [hq]

/-- `set_topic` never changes any topic's visible checkpoints: it at most
adds an empty stage map. -/
theorem hasFor_set_topic (cm : CM) (t q task : String) :
    hasFor (cm.set_topic t) q task = hasFor cm q task := by
  unfold hasFor CM.set_topic
  by_cases hq : q = t
  · subst hq
    rcases hm : cm.checkpoints q with _ | m <;> simp [hm, completedIn]
  · rcases hm : cm.checkpoints t with _ | m <;> simp [hm, hq]

theorem getFor_set_topic (cm : CM) (t q task : String) :
    getFor (cm.set_topic t) q task = getFor cm q task := by
  unfold getFor CM.set_topic
  by_cases hq : q = t
  · subst hq
    rcases hm : cm.checkpoints q with _ | m <;> simp [hm]
  · rcases hm : cm.checkpoints t with _ | m <;> simp [hm, hq]

/-- With a truthy active topic `t`, `has_checkpoint` is the
topic-indexed `hasFor` at `t`. -/
theorem has_checkpoint_eq_hasFor (cm : CM) (t task : String)
    (hc : cm.current_topic = some t) (ht : t ≠ "") :
    cm.has_checkpoint task = hasFor cm t task := by
  unfold CM.has_checkpoint hasFor completedIn
  rw [hc]
  simp [ht]

theorem get_checkpoint_eq_getFor (cm : CM) (t task : String)
    (hc : cm.current_topic = some t) (ht : t ≠ "") :
    cm.get_checkpoint task = getFor cm t task := by
  unfold CM.get_checkpoint getFor
  rw [hc]
  simp [ht]

/-- A truthy `has_checkpoint` forces a truthy active topic. -/
theorem has_checkpoint_topic (cm : CM) (task : String)
    (h : cm.has_checkpoint task = true) :
    ∃ t, cm.current_topic = some t ∧ t ≠ "" ∧ hasFor cm t task = true := by
  unfold CM.has_checkpoint at h
  rcases hc : cm.current_topic with _ | t
  · rw [hc] at h; simp at h
  · rw [hc] at h
    by_cases ht : t = ""
    · simp [ht] at h
    · refine ⟨t, rfl, ht, ?_⟩
      simp only [ht, ite_false] at h
      unfold hasFor completedIn
      rcases hm : cm.checkpoints t with _ | m
      · simp [hm] at h
      · simp only [hm] at h ⊢
        exact h

/-- Effect of `save_checkpoint` on the topic-indexed completion view. -/
theorem hasFor_save (cm : CM) (t q task saved out : String) (ag : Option String)
    (hc : cm.current_topic = some t) :
    hasFor (cm.save_checkpoint saved out ag) q task =
      if t ≠ "" ∧ q = t ∧ task = saved then true else hasFor cm q task := by
  unfold CM.save_checkpoint
  rw [hc]
  by_cases ht : t = ""
  · simp [ht]
  · simp only [ht, if_neg]
    by_cases hq : q = t
    · subst hq
      by_cases htask : task = saved
      · subst htask
        simp [ht, hasFor, completedIn]
      · simp [ht, htask, hasFor, completedIn]
        cases hm : cm.checkpoints q <;> simp [hm, htask, Option.getD]
    · simp [ht, hq, hasFor, completedIn]

theorem getFor_save (cm : CM) (t q task saved out : String) (ag : Option String)
    (hc : cm.current_topic = some t) :
    getFor (cm.save_checkpoint saved out ag) q task =
      if t ≠ "" ∧ q = t ∧ task = saved then some ⟨out, ag, true⟩
      else getFor cm q task := by
  unfold CM.save_checkpoint
  rw [hc]
  by_cases ht : t = ""
  · simp [ht]
  · simp only [ht, if_neg]
    by_cases hq : q = t
    · subst hq
      by_cases htask : task = saved
      · subst htask
        simp [ht, getFor]
      · simp [ht, htask, getFor]
        cases hm : cm.checkpoints q <;> simp [hm, htask, Option.getD]
    · simp [ht, hq, getFor]

/-- `save_checkpoint` never touches another topic's raw entry. -/
theorem save_lookup_other (cm : CM) (t q saved out : String) (ag : Option String)
    (hc : cm.current_topic = some t) (hq : q ≠ t) :
    (cm.save_checkpoint saved out ag).checkpoints q = cm.checkpoints q := by
  unfold CM.save_checkpoint
  rw [hc]
  by_cases ht : t = "" <;> simp [ht, hq]

/-- `clear_checkpoints` on an explicit nonempty topic: that topic's entry
is gone, every other topic's raw entry is untouched. -/
theorem clear_lookup (cm : CM) (t q : String) (ht : t ≠ "") :
    (cm.clear_checkpoints (some t)).checkpoints q =
      if q = t then none else cm.checkpoints q := by
  unfold CM.clear_checkpoints
  simp only [ht, if_neg]
  by_cases hq : q = t
  · subst hq
    cases hm : cm.checkpoints q <;> simp [ht, hm]
  · cases hm : cm.checkpoints t <;> simp [ht, hm, hq]

/-! ## Run-characterization lemmas -/

theorem set_topic_has (cm : CM) (topic task : String) (ht : topic ≠ "") :
    (cm.set_topic topic).has_checkpoint task = hasFor cm topic task := by
  rw [has_checkpoint_eq_hasFor (cm.set_topic topic) topic task rfl ht,
    hasFor_set_topic]

theorem set_topic_get (cm : CM) (topic task : String) (ht : topic ≠ "") :
    (cm.set_topic topic).get_checkpoint task = getFor cm topic task := by
  rw [get_checkpoint_eq_getFor (cm.set_topic topic) topic task rfl ht,
    getFor_set_topic]

theorem set_topic_storedOutput (cm : CM) (topic task : String) (ht : topic ≠ "") :
    storedOutput (cm.set_topic topic) task = outFor cm topic task := by
  unfold storedOutput outFor
  rw [set_topic_get cm topic task ht]

@[simp] theorem preRun_false (cm : CM) (topic : String) :
    preRun cm topic false = cm.set_topic topic := rfl

theorem preRun_current (cm : CM) (topic : String) (force : Bool) :
    (preRun cm topic force).current_topic = some topic := by
  unfold preRun
  cases force <;> simp

theorem runStages_skip_plan (cm1 : CM) (exec : Exec)
    (h : cm1.has_checkpoint "plan" = true) :
    runStages cm1 exec = run_from_write cm1 [] (storedOutput cm1 "plan") exec := by
  unfold runStages
  simp [h]

theorem runStages_plan_ok (cm1 : CM) (exec : Exec) (raw : String)
    (h : cm1.has_checkpoint "plan" = false)
    (hx : exec "plan" none = ExecResult.ok raw) :
    runStages cm1 exec =
      run_from_write
        (cm1.save_checkpoint "plan" (clean_output raw) (some plannerRole))
        [("plan", none)] (clean_output raw) exec := by
  unfold runStages execute_task_with_checkpoint
  simp [h, ctxArg, hx]

theorem runStages_plan_err (cm1 : CM) (exec : Exec) (e : ErrKind)
    (h : cm1.has_checkpoint "plan" = false)
    (hx : exec "plan" none = ExecResult.err e) :
    runStages cm1 exec = ⟨cm1, [("plan", none)], Except.error e⟩ := by
  unfold runStages execute_task_with_checkpoint
  simp [h, ctxArg, hx]

theorem run_from_write_skip (cm : CM) (calls : List Call) (p : String)
    (exec : Exec) (h : cm.has_checkpoint "write" = true) :
    run_from_write cm calls p exec =
      run_from_edit cm calls (storedOutput cm "write") exec := by
  unfold run_from_write
  simp [h]

theorem run_from_write_ok (cm : CM) (calls : List Call) (p : String)
    (exec : Exec) (raw : String) (h : cm.has_checkpoint "write" = false)
    (hx : exec "write" (ctxArg (some p)) = ExecResult.ok raw) :
    run_from_write cm calls p exec =
      run_from_edit
        (cm.save_checkpoint "write" (clean_output raw) (some writerRole))
        (calls ++ [("write", ctxArg (some p))]) (clean_output raw) exec := by
  unfold run_from_write execute_task_with_checkpoint
  simp [h, hx]

theorem run_from_write_err (cm : CM) (calls : List Call) (p : String)
    (exec : Exec) (e : ErrKind) (h : cm.has_checkpoint "write" = false)
    (hx : exec "write" (ctxArg (some p)) = ExecResult.err e) :
    run_from_write cm calls p exec =
      ⟨cm, calls ++ [("write", ctxArg (some p))], Except.error e⟩ := by
  unfold run_from_write execute_task_with_checkpoint
  simp [h, hx]

theorem run_from_edit_skip (cm : CM) (calls : List Call) (w : String)
    (exec : Exec) (h : cm.has_checkpoint "edit" = true) :
    run_from_edit cm calls w exec = ⟨cm, calls, Except.ok (storedOutput cm "edit")⟩ := by
  unfold run_from_edit
  simp [h]

theorem run_from_edit_ok (cm : CM) (calls : List Call) (w : String)
    (exec : Exec) (raw : String) (h : cm.has_checkpoint "edit" = false)
    (hx : exec "edit" (ctxArg (some w)) = ExecResult.ok raw) :
    run_from_edit cm calls w exec =
      ⟨cm.save_checkpoint "edit" (clean_output raw) (some editorRole),
        calls ++ [("edit", ctxArg (some w))], Except.ok (clean_output raw)⟩ := by
  unfold run_from_edit execute_task_with_checkpoint
  simp [h, hx]

theorem run_from_edit_err (cm : CM) (calls : List Call) (w : String)
    (exec : Exec) (e : ErrKind) (h : cm.has_checkpoint "edit" = false)
    (hx : exec "edit" (ctxArg (some w)) = ExecResult.err e) :
    run_from_edit cm calls w exec =
      ⟨cm, calls ++ [("edit", ctxArg (some w))], Except.error e⟩ := by
  unfold run_from_edit execute_task_with_checkpoint
  simp [h, hx]

/-- `has_checkpoint` through a `save_checkpoint` on a state whose active
topic is the truthy `t`. -/
theorem has_save (cm : CM) (t task saved out : String) (ag : Option String)
    (hc : cm.current_topic = some t) (ht : t ≠ "") :
    (cm.save_checkpoint saved out ag).has_checkpoint task =
      if task = saved then true else cm.has_checkpoint task := by
  have hc2 : (cm.save_checkpoint saved out ag).current_topic = some t := by
    rw [save_current, hc]
  rw [has_checkpoint_eq_hasFor _ t task hc2 ht,
    has_checkpoint_eq_hasFor cm t task hc ht, hasFor_save cm t t task saved out ag hc]
  simp [ht]

theorem storedOutput_save (cm : CM) (t task saved out : String) (ag : Option String)
    (hc : cm.current_topic = some t) (ht : t ≠ "") :
    storedOutput (cm.save_checkpoint saved out ag) task =
      if task = saved then out else storedOutput cm task := by
  have hc2 : (cm.save_checkpoint saved out ag).current_topic = some t := by
    rw [save_current, hc]
  unfold storedOutput
  rw [get_checkpoint_eq_getFor _ t task hc2 ht,
    get_checkpoint_eq_getFor cm t task hc ht, getFor_save cm t t task saved out ag hc]
  by_cases htask : task = saved <;> simp [ht, htask]

/-! ## Claim theorems -/

theorem has_checkpoint_false_of_none (cm : CM) (task : String)
    (h : cm.current_topic = none) : cm.has_checkpoint task = false := by
  unfold CM.has_checkpoint
  rw [h]

theorem has_checkpoint_false_of_empty (cm : CM) (task : String)
    (h : cm.current_topic = some "") : cm.has_checkpoint task = false := by
  unfold CM.has_checkpoint
  rw [h]
  simp

theorem has_checkpoint_false_of_no_map (cm : CM) (t task : String)
    (hc : cm.current_topic = some t) (hm : cm.checkpoints t = none) :
    cm.has_checkpoint task = false := by
  unfold CM.has_checkpoint
  rw [hc]
  by_cases ht : t = "" <;> simp [ht, hm]

/-- C8: `get_latest_completed_task` scans the fixed stage sequence
`['plan', 'write', 'edit']` in reverse and returns the first
(highest-index) stage that has a completed checkpoint for the active
topic (`latestCompletedStage`, written from the spec's words), and
returns `none` when no stage has a completed checkpoint or no active
topic is set. -/
theorem claim_C8 (cm : CM) :
    cm.get_latest_completed_task = latestCompletedStage cm ∧
      (cm.current_topic = none → cm.get_latest_completed_task = none) := by
  constructor
  · unfold CM.get_latest_completed_task latestCompletedStage
    rcases hc : cm.current_topic with _ | t
    · have hh : ∀ task, cm.has_checkpoint task = false :=
        fun task => has_checkpoint_false_of_none cm task hc
      simp [task_order, List.find?, hh]
    · by_cases ht : t = ""
      · subst ht
        have hh : ∀ task, cm.has_checkpoint task = false :=
          fun task => has_checkpoint_false_of_empty cm task hc
        simp [task_order, List.find?, hh]
      · rcases hm : cm.checkpoints t with _ | m
        · have hh : ∀ task, cm.has_checkpoint task = false :=
            fun task => has_checkpoint_false_of_no_map cm t task hc hm
          simp [ht, hm, task_order, List.find?, hh]
        · have hh : ∀ task, cm.has_checkpoint task = completedIn m task := by
            intro task
            unfold CM.has_checkpoint completedIn
            rw [hc]
            simp [ht, hm]
          simp only [ht, hm, ite_false, hh, task_order]
          cases h1 : completedIn m "edit" <;> cases h2 : completedIn m "write" <;>
            cases h3 : completedIn m "plan" <;>
            simp [latestLoop, List.find?, h1, h2, h3]
  · intro h
    unfold CM.get_latest_completed_task
    rw [h]

/-- C9: a `save_checkpoint` call made while no active topic is set
(`current_topic is None`) returns normally (the model is a total
function; the code prints a warning and returns) and leaves the
checkpoint mapping completely unchanged, so a subsequent
`has_checkpoint` or `get_checkpoint` observes no new entry. -/
theorem claim_C9 (cm : CM) (task out : String) (ag : Option String)
    (h : cm.current_topic = none) :
    cm.save_checkpoint task out ag = cm ∧
      (cm.save_checkpoint task out ag).has_checkpoint task = cm.has_checkpoint task ∧
      (cm.save_checkpoint task out ag).get_checkpoint task = cm.get_checkpoint task := by
  have he : cm.save_checkpoint task out ag = cm := by
    unfold CM.save_checkpoint
    rw [h]
  exact ⟨he, by rw [he], by rw [he]⟩

theorem claim_C9_witness :
    CM.init.current_topic = none ∧
      (CM.init.save_checkpoint "plan" "out" none = CM.init ∧
        (CM.init.save_checkpoint "plan" "out" none).has_checkpoint "plan" =
          CM.init.has_checkpoint "plan" ∧
        (CM.init.save_checkpoint "plan" "out" none).get_checkpoint "plan" =
          CM.init.get_checkpoint "plan") :=
  ⟨rfl, claim_C9 CM.init "plan" "out" none rfl⟩

/-- C10: `clear_checkpoints` (whether passed a topic or defaulting to the
current topic) never changes the active-topic scope, while
`clear_all_checkpoints` resets `current_topic` to `None`. -/
theorem claim_C10 (cm : CM) (topic : Option String) :
    (cm.clear_checkpoints topic).current_topic = cm.current_topic ∧
      cm.clear_all_checkpoints.current_topic = none :=
  ⟨clear_current cm topic, rfl⟩

/-- C3: when all stages (plan, write, edit) already have completed
checkpoints for the (nonempty) topic, `run_with_retry` with
`forceRestart = false` invokes the stage executor zero times
(empty call list, store state untouched beyond `set_topic`) and returns
the edit stage's checkpointed output. -/
theorem claim_C3 (cm : CM) (topic : String) (exec : Exec) (ht : topic ≠ "")
    (hp : hasFor cm topic "plan" = true) (hw : hasFor cm topic "write" = true)
    (he : hasFor cm topic "edit" = true) :
    (run_with_retry_body cm topic false exec).calls = [] ∧
      (run_with_retry_body cm topic false exec).result =
        Except.ok (outFor cm topic "edit") ∧
      (run_with_retry_body cm topic false exec).state = cm.set_topic topic := by
  have h1 : (cm.set_topic topic).has_checkpoint "plan" = true := by
    rw [set_topic_has cm topic "plan" ht]; exact hp
  have h2 : (cm.set_topic topic).has_checkpoint "write" = true := by
    rw [set_topic_has cm topic "write" ht]; exact hw
  have h3 : (cm.set_topic topic).has_checkpoint "edit" = true := by
    rw [set_topic_has cm topic "edit" ht]; exact he
  have hrun : run_with_retry_body cm topic false exec =
      ⟨cm.set_topic topic, [], Except.ok (storedOutput (cm.set_topic topic) "edit")⟩ := by
    unfold run_with_retry_body
    rw [preRun_false, runStages_skip_plan _ _ h1, run_from_write_skip _ _ _ _ h2,
      run_from_edit_skip _ _ _ _ h3]
  rw [hrun, set_topic_storedOutput cm topic "edit" ht]
  exact ⟨rfl, rfl, rfl⟩

theorem claim_C3_witness :
    ("A" : String) ≠ "" ∧ hasFor cmAll "A" "plan" = true ∧
      hasFor cmAll "A" "write" = true ∧ hasFor cmAll "A" "edit" = true ∧
      ((run_with_retry_body cmAll "A" false demoExec).calls = [] ∧
        (run_with_retry_body cmAll "A" false demoExec).result =
          Except.ok (outFor cmAll "A" "edit") ∧
        (run_with_retry_body cmAll "A" false demoExec).state = cmAll.set_topic "A") :=
  ⟨by decide, by decide, by decide, by decide,
    claim_C3 cmAll "A" demoExec (by decide) (by decide) (by decide) (by decide)⟩

/-- C2: when only stage `plan` has a completed checkpoint for the
(nonempty) topic, `run_with_retry` with `forceRestart = false` invokes
the executor only for `write` and then `edit`, in that order, never for
`plan`; the write stage receives the plan checkpoint's stored output as
its input context (under the code's truthiness convention `ctxArg`), the
edit stage receives the write stage's sanitized output, and the run
returns the edit stage's sanitized output. -/
theorem claim_C2 (cm : CM) (topic : String) (exec : Exec) (w_raw e_raw : String)
    (ht : topic ≠ "")
    (hp : hasFor cm topic "plan" = true)
    (hw : hasFor cm topic "write" = false)
    (he : hasFor cm topic "edit" = false)
    (hxw : exec "write" (ctxArg (some (outFor cm topic "plan"))) = ExecResult.ok w_raw)
    (hxe : exec "edit" (ctxArg (some (clean_output w_raw))) = ExecResult.ok e_raw) :
    (run_with_retry_body cm topic false exec).calls =
      [("write", ctxArg (some (outFor cm topic "plan"))),
        ("edit", ctxArg (some (clean_output w_raw)))] ∧
      (run_with_retry_body cm topic false exec).result =
        Except.ok (clean_output e_raw) := by
  have h1 : (cm.set_topic topic).has_checkpoint "plan" = true := by
    rw [set_topic_has cm topic "plan" ht]; exact hp
  have h2 : (cm.set_topic topic).has_checkpoint "write" = false := by
    rw [set_topic_has cm topic "write" ht]; exact hw
  have hcur : (cm.set_topic topic).current_topic = some topic := rfl
  have h3 : ((cm.set_topic topic).save_checkpoint "write" (clean_output w_raw)
      (some writerRole)).has_checkpoint "edit" = false := by
    rw [has_save (cm.set_topic topic) topic "edit" "write" (clean_output w_raw)
      (some writerRole) hcur ht]
    simp only [if_neg (by decide : ¬("edit" : String) = "write")]
    rw [set_topic_has cm topic "edit" ht]; exact he
  have hrun : run_with_retry_body cm topic false exec =
      ⟨((cm.set_topic topic).save_checkpoint "write" (clean_output w_raw)
          (some writerRole)).save_checkpoint "edit" (clean_output e_raw)
          (some editorRole),
        [("write", ctxArg (some (outFor cm topic "plan"))),
          ("edit", ctxArg (some (clean_output w_raw)))],
        Except.ok (clean_output e_raw)⟩ := by
    unfold run_with_retry_body
    rw [preRun_false, runStages_skip_plan _ _ h1,
      set_topic_storedOutput cm topic "plan" ht,
      run_from_write_ok _ _ _ _ w_raw h2 hxw,
      run_from_edit_ok _ _ _ _ e_raw h3 hxe]
    simp
  rw [hrun]
  exact ⟨rfl, rfl⟩

theorem claim_C2_witness :
    ("A" : String) ≠ "" ∧ hasFor cmPlanOnly "A" "plan" = true ∧
      hasFor cmPlanOnly "A" "write" = false ∧ hasFor cmPlanOnly "A" "edit" = false ∧
      demoExec "write" (ctxArg (some (outFor cmPlanOnly "A" "plan"))) =
        ExecResult.ok "write raw" ∧
      demoExec "edit" (ctxArg (some (clean_output "write raw"))) =
        ExecResult.ok "edit raw" ∧
      ((run_with_retry_body cmPlanOnly "A" false demoExec).calls =
        [("write", ctxArg (some (outFor cmPlanOnly "A" "plan"))),
          ("edit", ctxArg (some (clean_output "write raw")))] ∧
        (run_with_retry_body cmPlanOnly "A" false demoExec).result =
          Except.ok (clean_output "edit raw")) :=
  ⟨by decide, by decide, by decide, by decide, by decide, by decide,
    claim_C2 cmPlanOnly "A" demoExec "write raw" "edit raw" (by decide) (by decide)
      (by decide) (by decide) (by decide) (by decide)⟩

theorem run_from_edit_lookup (cm : CM) (calls : List Call) (w : String)
    (exec : Exec) (q topic : String) (hc : cm.current_topic = some topic)
    (hq : q ≠ topic) :
    (run_from_edit cm calls w exec).state.checkpoints q = cm.checkpoints q := by
  by_cases h : cm.has_checkpoint "edit" = true
  · rw [run_from_edit_skip _ _ _ _ h]
  · have h2 : cm.has_checkpoint "edit" = false := by simpa using h
    rcases hx : exec "edit" (ctxArg (some w)) with raw | e
    · rw [run_from_edit_ok _ _ _ _ raw h2 hx]
      exact save_lookup_other cm topic q "edit" (clean_output raw) (some editorRole) hc hq
    · rw [run_from_edit_err _ _ _ _ e h2 hx]

theorem run_from_write_lookup (cm : CM) (calls : List Call) (p : String)
    (exec : Exec) (q topic : String) (hc : cm.current_topic = some topic)
    (hq : q ≠ topic) :
    (run_from_write cm calls p exec).state.checkpoints q = cm.checkpoints q := by
  by_cases h : cm.has_checkpoint "write" = true
  · rw [run_from_write_skip _ _ _ _ h]
    exact run_from_edit_lookup cm calls _ exec q topic hc hq
  · have h2 : cm.has_checkpoint "write" = false := by simpa using h
    rcases hx : exec "write" (ctxArg (some p)) with raw | e
    · rw [run_from_write_ok _ _ _ _ raw h2 hx]
      have hc2 : (cm.save_checkpoint "write" (clean_output raw)
          (some writerRole)).current_topic = some topic := by
        rw [save_current, hc]
      rw [run_from_edit_lookup _ _ _ exec q topic hc2 hq]
      exact save_lookup_other cm topic q "write" (clean_output raw) (some writerRole) hc hq
    · rw [run_from_write_err _ _ _ _ e h2 hx]

theorem runStages_lookup (cm1 : CM) (exec : Exec) (q topic : String)
    (hc : cm1.current_topic = some topic) (hq : q ≠ topic) :
    (runStages cm1 exec).state.checkpoints q = cm1.checkpoints q := by
  by_cases h : cm1.has_checkpoint "plan" = true
  · rw [runStages_skip_plan _ _ h]
    exact run_from_write_lookup cm1 [] _ exec q topic hc hq
  · have h2 : cm1.has_checkpoint "plan" = false := by simpa using h
    rcases hx : exec "plan" none with raw | e
    · rw [runStages_plan_ok _ _ raw h2 hx]
      have hc2 : (cm1.save_checkpoint "plan" (clean_output raw)
          (some plannerRole)).current_topic = some topic := by
        rw [save_current, hc]
      rw [run_from_write_lookup _ _ _ exec q topic hc2 hq]
      exact save_lookup_other cm1 topic q "plan" (clean_output raw) (some plannerRole) hc hq
    · rw [runStages_plan_err _ _ e h2 hx]

theorem preRun_lookup (cm : CM) (topic : String) (force : Bool) (q : String)
    (hq : q ≠ topic) :
    (preRun cm topic force).checkpoints q = cm.checkpoints q := by
  unfold preRun
  cases force
  · simp [set_topic_lookup cm topic q hq]
  · simp only [if_true]
    by_cases ht : topic = ""
    · subst ht
      have hclear : (cm.set_topic "").clear_checkpoints (some "") = cm.set_topic "" := by
        unfold CM.clear_checkpoints
        simp [CM.set_topic]
      rw [hclear]
      exact set_topic_lookup cm "" q hq
    · rw [clear_lookup _ topic q ht]
      simp only [hq, if_neg, ite_false]
      exact set_topic_lookup cm topic q hq

/-- Frame of one run attempt: a topic other than the run's topic keeps
its raw store entry unchanged. -/
theorem run_body_lookup (cm : CM) (topic : String) (force : Bool)
    (exec : Exec) (q : String) (hq : q ≠ topic) :
    (run_with_retry_body cm topic force exec).state.checkpoints q =
      cm.checkpoints q := by
  unfold run_with_retry_body
  rw [runStages_lookup (preRun cm topic force) exec q topic
    (preRun_current cm topic force) hq]
  exact preRun_lookup cm topic force q hq

/-- C6: running topic A with `forceRestart = true` removes all of A's
checkpoint entries before executing (the pre-execution state has no
entry for A) and leaves every checkpoint entry of any other topic B
completely unchanged; and clearing scoped to one (truthy) topic never
removes or modifies another topic's entries. -/
theorem claim_C6 (cm : CM) (A B : String) (exec : Exec) (hA : A ≠ "")
    (hBA : B ≠ A) :
    (preRun cm A true).checkpoints A = none ∧
      (run_with_retry_body cm A true exec).state.checkpoints B =
        cm.checkpoints B ∧
      (∀ (cm2 : CM) (t q : String), t ≠ "" → q ≠ t →
        (cm2.clear_checkpoints (some t)).checkpoints q = cm2.checkpoints q) := by
  refine ⟨?_, ?_, ?_⟩
  · unfold preRun
    simp only [if_true]
    rw [clear_lookup _ A A hA]
    simp
  · exact run_body_lookup cm A true exec B hBA
  · intro cm2 t q htq hqt
    rw [clear_lookup cm2 t q htq]
    simp [hqt]

theorem claim_C6_witness :
    ("A" : String) ≠ "" ∧ ("B" : String) ≠ "A" ∧
      ((preRun cmAB "A" true).checkpoints "A" = none ∧
        (run_with_retry_body cmAB "A" true demoExec).state.checkpoints "B" =
          cmAB.checkpoints "B" ∧
        (∀ (cm2 : CM) (t q : String), t ≠ "" → q ≠ t →
          (cm2.clear_checkpoints (some t)).checkpoints q = cm2.checkpoints q)) :=
  ⟨by decide, by decide, claim_C6 cmAB "A" "B" demoExec (by decide) (by decide)⟩

theorem run_from_edit_calls_prefix (cm : CM) (calls : List Call) (w : String)
    (exec : Exec) :
    ∃ suffix, (run_from_edit cm calls w exec).calls = calls ++ suffix := by
  by_cases h : cm.has_checkpoint "edit" = true
  · exact ⟨[], by rw [run_from_edit_skip _ _ _ _ h]; simp⟩
  · have h2 : cm.has_checkpoint "edit" = false := by simpa using h
    rcases hx : exec "edit" (ctxArg (some w)) with raw | e
    · exact ⟨[("edit", ctxArg (some w))], by rw [run_from_edit_ok _ _ _ _ raw h2 hx]⟩
    · exact ⟨[("edit", ctxArg (some w))], by rw [run_from_edit_err _ _ _ _ e h2 hx]⟩

/-- When plan is checkpointed and write is not, the first executor call
of a run is the write stage, whatever the executor then does. -/
theorem first_call_write (cm1 : CM) (exec2 : Exec)
    (h1 : cm1.has_checkpoint "plan" = true)
    (h2 : cm1.has_checkpoint "write" = false) :
    ((runStages cm1 exec2).calls.map Prod.fst).head? = some "write" := by
  rw [runStages_skip_plan _ _ h1]
  rcases hx : exec2 "write" (ctxArg (some (storedOutput cm1 "plan"))) with raw | e
  · rw [run_from_write_ok _ _ _ _ raw h2 hx]
    obtain ⟨suffix, hs⟩ := run_from_edit_calls_prefix
      (cm1.save_checkpoint "write" (clean_output raw) (some writerRole))
      ([] ++ [("write", ctxArg (some (storedOutput cm1 "plan")))])
      (clean_output raw) exec2
    rw [hs]
    simp
  · rw [run_from_write_err _ _ _ _ e h2 hx]
    simp

theorem resume_first_write (cmX : CM) (topic : String) (exec2 : Exec)
    (ht : topic ≠ "") (hp : hasFor cmX topic "plan" = true)
    (hw : hasFor cmX topic "write" = false) :
    ((run_with_retry_body cmX topic false exec2).calls.map Prod.fst).head? =
      some "write" := by
  unfold run_with_retry_body
  rw [preRun_false]
  apply first_call_write
  · rw [set_topic_has cmX topic "plan" ht]; exact hp
  · rw [set_topic_has cmX topic "write" ht]; exact hw

/-- `save_checkpoint` never destroys an existing completed checkpoint of
any topic (it can only overwrite one with a new completed one). -/
theorem hasFor_save_mono (cm : CM) (q task saved out : String)
    (ag : Option String) (h : hasFor cm q task = true) :
    hasFor (cm.save_checkpoint saved out ag) q task = true := by
  rcases hc : cm.current_topic with _ | t
  · have hid : cm.save_checkpoint saved out ag = cm := by
      unfold CM.save_checkpoint
      rw [hc]
    rw [hid]
    exact h
  · rw [hasFor_save cm t q task saved out ag hc]
    split
    · rfl
    · exact h

/-- Failure at stage `write` (plan succeeding when invoked): the error
propagates, the edit executor is never invoked, earlier checkpoints stay
intact, and a re-run starts at `write`. -/
theorem fatal_at_write (cm : CM) (topic : String) (exec : Exec) (e : ErrKind)
    (ht : topic ≠ "")
    (hw : hasFor cm topic "write" = false)
    (hW : ∀ c, exec "write" c = ExecResult.err e)
    (hP : ∀ c, ∃ raw, exec "plan" c = ExecResult.ok raw) :
    (run_with_retry_body cm topic false exec).result = Except.error e ∧
      "edit" ∉ (run_with_retry_body cm topic false exec).calls.map Prod.fst ∧
      (∀ q task, hasFor cm q task = true →
        hasFor (run_with_retry_body cm topic false exec).state q task = true) ∧
      hasFor (run_with_retry_body cm topic false exec).state topic "plan" = true ∧
      hasFor (run_with_retry_body cm topic false exec).state topic "write" = false ∧
      (∀ exec2 : Exec,
        ((run_with_retry_body (run_with_retry_body cm topic false exec).state
            topic false exec2).calls.map Prod.fst).head? = some "write") := by
  by_cases hp : hasFor cm topic "plan" = true
  · have h1 : (cm.set_topic topic).has_checkpoint "plan" = true := by
      rw [set_topic_has cm topic "plan" ht]; exact hp
    have h2 : (cm.set_topic topic).has_checkpoint "write" = false := by
      rw [set_topic_has cm topic "write" ht]; exact hw
    have hrun : run_with_retry_body cm topic false exec =
        ⟨cm.set_topic topic,
          [] ++ [("write", ctxArg (some (storedOutput (cm.set_topic topic) "plan")))],
          Except.error e⟩ := by
      unfold run_with_retry_body
      rw [preRun_false, runStages_skip_plan _ _ h1,
        run_from_write_err _ _ _ _ e h2 (hW _)]
    rw [hrun]
    refine ⟨rfl, by simp, ?_, ?_, ?_, ?_⟩
    · intro q task hq
      rw [hasFor_set_topic]
      exact hq
    · rw [hasFor_set_topic]
      exact hp
    · rw [hasFor_set_topic]
      exact hw
    · intro exec2
      apply resume_first_write _ topic exec2 ht
      · rw [hasFor_set_topic]; exact hp
      · rw [hasFor_set_topic]; exact hw
  · have hp2 : hasFor cm topic "plan" = false := by simpa using hp
    have h1 : (cm.set_topic topic).has_checkpoint "plan" = false := by
      rw [set_topic_has cm topic "plan" ht]; exact hp2
    obtain ⟨raw, hraw⟩ := hP none
    have hcur : (cm.set_topic topic).current_topic = some topic := rfl
    have h2 : ((cm.set_topic topic).save_checkpoint "plan" (clean_output raw)
        (some plannerRole)).has_checkpoint "write" = false := by
      rw [has_save (cm.set_topic topic) topic "write" "plan" (clean_output raw)
        (some plannerRole) hcur ht]
      simp only [if_neg (by decide : ¬("write" : String) = "plan")]
      rw [set_topic_has cm topic "write" ht]
      exact hw
    have hrun : run_with_retry_body cm topic false exec =
        ⟨(cm.set_topic topic).save_checkpoint "plan" (clean_output raw)
            (some plannerRole),
          [("plan", none)] ++ [("write", ctxArg (some (clean_output raw)))],
          Except.error e⟩ := by
      unfold run_with_retry_body
      rw [preRun_false, runStages_plan_ok _ _ raw h1 hraw,
        run_from_write_err _ _ _ _ e h2 (hW _)]
    rw [hrun]
    have hplanT : hasFor ((cm.set_topic topic).save_checkpoint "plan"
        (clean_output raw) (some plannerRole)) topic "plan" = true := by
      rw [hasFor_save (cm.set_topic topic) topic topic "plan" "plan"
        (clean_output raw) (some plannerRole) hcur]
      simp [ht]
    have hwriteF : hasFor ((cm.set_topic topic).save_checkpoint "plan"
        (clean_output raw) (some plannerRole)) topic "write" = false := by
      rw [hasFor_save (cm.set_topic topic) topic topic "write" "plan"
        (clean_output raw) (some plannerRole) hcur]
      split
      · next hcond => exact absurd hcond.2.2 (by decide)
      · rw [hasFor_set_topic]
        exact hw
    refine ⟨rfl, by simp, ?_, hplanT, hwriteF, ?_⟩
    · intro q task hq
      apply hasFor_save_mono
      rw [hasFor_set_topic]
      exact hq
    · intro exec2
      exact resume_first_write _ topic exec2 ht hplanT hwriteF

theorem run_from_write_calls_prefix (cm : CM) (calls : List Call) (p : String)
    (exec : Exec) :
    ∃ suffix, (run_from_write cm calls p exec).calls = calls ++ suffix := by
  by_cases h : cm.has_checkpoint "write" = true
  · rw [run_from_write_skip _ _ _ _ h]
    exact run_from_edit_calls_prefix cm calls _ exec
  · have h2 : cm.has_checkpoint "write" = false := by simpa using h
    rcases hx : exec "write" (ctxArg (some p)) with raw | e
    · rw [run_from_write_ok _ _ _ _ raw h2 hx]
      obtain ⟨suffix, hs⟩ := run_from_edit_calls_prefix
        (cm.save_checkpoint "write" (clean_output raw) (some writerRole))
        (calls ++ [("write", ctxArg (some p))]) (clean_output raw) exec
      exact ⟨("write", ctxArg (some p)) :: suffix, by rw [hs]; simp⟩
    · exact ⟨[("write", ctxArg (some p))],
        by rw [run_from_write_err _ _ _ _ e h2 hx]⟩

/-- When plan is not checkpointed, the first executor call of a run is
the plan stage. -/
theorem first_call_plan (cm1 : CM) (exec2 : Exec)
    (h1 : cm1.has_checkpoint "plan" = false) :
    ((runStages cm1 exec2).calls.map Prod.fst).head? = some "plan" := by
  rcases hx : exec2 "plan" none with raw | e
  · rw [runStages_plan_ok _ _ raw h1 hx]
    obtain ⟨suffix, hs⟩ := run_from_write_calls_prefix
      (cm1.save_checkpoint "plan" (clean_output raw) (some plannerRole))
      [("plan", none)] (clean_output raw) exec2
    rw [hs]
    simp
  · rw [runStages_plan_err _ _ e h1 hx]
    simp

theorem resume_first_plan (cmX : CM) (topic : String) (exec2 : Exec)
    (ht : topic ≠ "") (hp : hasFor cmX topic "plan" = false) :
    ((run_with_retry_body cmX topic false exec2).calls.map Prod.fst).head? =
      some "plan" := by
  unfold run_with_retry_body
  rw [preRun_false]
  apply first_call_plan
  rw [set_topic_has cmX topic "plan" ht]
  exact hp

/-- When plan and write are checkpointed and edit is not, the first
executor call of a run is the edit stage. -/
theorem first_call_edit (cm1 : CM) (exec2 : Exec)
    (h1 : cm1.has_checkpoint "plan" = true)
    (h2 : cm1.has_checkpoint "write" = true)
    (h3 : cm1.has_checkpoint "edit" = false) :
    ((runStages cm1 exec2).calls.map Prod.fst).head? = some "edit" := by
  rw [runStages_skip_plan _ _ h1, run_from_write_skip _ _ _ _ h2]
  rcases hx : exec2 "edit" (ctxArg (some (storedOutput cm1 "write"))) with raw | e
  · rw [run_from_edit_ok _ _ _ _ raw h3 hx]
    simp
  · rw [run_from_edit_err _ _ _ _ e h3 hx]
    simp

theorem resume_first_edit (cmX : CM) (topic : String) (exec2 : Exec)
    (ht : topic ≠ "") (hp : hasFor cmX topic "plan" = true)
    (hw : hasFor cmX topic "write" = true)
    (he : hasFor cmX topic "edit" = false) :
    ((run_with_retry_body cmX topic false exec2).calls.map Prod.fst).head? =
      some "edit" := by
  unfold run_with_retry_body
  rw [preRun_false]
  apply first_call_edit
  · rw [set_topic_has cmX topic "plan" ht]; exact hp
  · rw [set_topic_has cmX topic "write" ht]; exact hw
  · rw [set_topic_has cmX topic "edit" ht]; exact he

/-- Failure at stage `plan`: the error propagates, no other stage's
executor is invoked, pre-existing checkpoints stay intact, and a re-run
starts at `plan`. -/
theorem fatal_at_plan (cm : CM) (topic : String) (exec : Exec) (e : ErrKind)
    (ht : topic ≠ "")
    (hp : hasFor cm topic "plan" = false)
    (hP : ∀ c, exec "plan" c = ExecResult.err e) :
    (run_with_retry_body cm topic false exec).result = Except.error e ∧
      (run_with_retry_body cm topic false exec).calls.map Prod.fst = ["plan"] ∧
      (∀ q task, hasFor cm q task = true →
        hasFor (run_with_retry_body cm topic false exec).state q task = true) ∧
      hasFor (run_with_retry_body cm topic false exec).state topic "plan" = false ∧
      (∀ exec2 : Exec,
        ((run_with_retry_body (run_with_retry_body cm topic false exec).state
            topic false exec2).calls.map Prod.fst).head? = some "plan") := by
  have h1 : (cm.set_topic topic).has_checkpoint "plan" = false := by
    rw [set_topic_has cm topic "plan" ht]; exact hp
  have hrun : run_with_retry_body cm topic false exec =
      ⟨cm.set_topic topic, [("plan", none)], Except.error e⟩ := by
    unfold run_with_retry_body
    rw [preRun_false, runStages_plan_err _ _ e h1 (hP none)]
  rw [hrun]
  refine ⟨rfl, rfl, ?_, ?_, ?_⟩
  · intro q task hq
    rw [hasFor_set_topic]
    exact hq
  · rw [hasFor_set_topic]
    exact hp
  · intro exec2
    apply resume_first_plan _ topic exec2 ht
    rw [hasFor_set_topic]
    exact hp

/-- Failure at stage `edit` (plan and write succeeding when invoked):
the error propagates, earlier checkpoints — both pre-existing ones and
the ones saved during this run — stay intact, plan and write are
checkpointed afterwards while edit is not, and a re-run starts at
`edit`. -/
theorem fatal_at_edit (cm : CM) (topic : String) (exec : Exec) (e : ErrKind)
    (ht : topic ≠ "")
    (he : hasFor cm topic "edit" = false)
    (hE : ∀ c, exec "edit" c = ExecResult.err e)
    (hP : ∀ c, ∃ raw, exec "plan" c = ExecResult.ok raw)
    (hW : ∀ c, ∃ raw, exec "write" c = ExecResult.ok raw) :
    (run_with_retry_body cm topic false exec).result = Except.error e ∧
      (∀ q task, hasFor cm q task = true →
        hasFor (run_with_retry_body cm topic false exec).state q task = true) ∧
      hasFor (run_with_retry_body cm topic false exec).state topic "plan" = true ∧
      hasFor (run_with_retry_body cm topic false exec).state topic "write" = true ∧
      hasFor (run_with_retry_body cm topic false exec).state topic "edit" = false ∧
      (∀ exec2 : Exec,
        ((run_with_retry_body (run_with_retry_body cm topic false exec).state
            topic false exec2).calls.map Prod.fst).head? = some "edit") := by
  have hedit_run : ∀ (cmX : CM) (calls : List Call) (w : String),
      cmX.has_checkpoint "edit" = false →
      run_from_edit cmX calls w exec =
        ⟨cmX, calls ++ [("edit", ctxArg (some w))], Except.error e⟩ :=
    fun cmX calls w hhe => run_from_edit_err cmX calls w exec e hhe (hE _)
  have main : ∃ cmX calls w, run_with_retry_body cm topic false exec =
      ⟨cmX, calls ++ [("edit", ctxArg (some w))], Except.error e⟩ ∧
      (∀ q task, hasFor cm q task = true → hasFor cmX q task = true) ∧
      hasFor cmX topic "plan" = true ∧ hasFor cmX topic "write" = true ∧
      hasFor cmX topic "edit" = false := by
    by_cases hp : hasFor cm topic "plan" = true
    · have h1 : (cm.set_topic topic).has_checkpoint "plan" = true := by
        rw [set_topic_has cm topic "plan" ht]; exact hp
      by_cases hw : hasFor cm topic "write" = true
      · have h2 : (cm.set_topic topic).has_checkpoint "write" = true := by
          rw [set_topic_has cm topic "write" ht]; exact hw
        have h3 : (cm.set_topic topic).has_checkpoint "edit" = false := by
          rw [set_topic_has cm topic "edit" ht]; exact he
        refine ⟨cm.set_topic topic, [], storedOutput (cm.set_topic topic) "write",
          ?_, ?_, ?_, ?_, ?_⟩
        · unfold run_with_retry_body
          rw [preRun_false, runStages_skip_plan _ _ h1,
            run_from_write_skip _ _ _ _ h2, hedit_run _ _ _ h3]
        · intro q task hq
          rw [hasFor_set_topic]; exact hq
        · rw [hasFor_set_topic]; exact hp
        · rw [hasFor_set_topic]; exact hw
        · rw [hasFor_set_topic]; exact he
      · have hw2 : hasFor cm topic "write" = false := by simpa using hw
        have h2 : (cm.set_topic topic).has_checkpoint "write" = false := by
          rw [set_topic_has cm topic "write" ht]; exact hw2
        obtain ⟨wraw, hwraw⟩ := hW (ctxArg (some (storedOutput (cm.set_topic topic) "plan")))
        have hcur : (cm.set_topic topic).current_topic = some topic := rfl
        have h3 : ((cm.set_topic topic).save_checkpoint "write" (clean_output wraw)
            (some writerRole)).has_checkpoint "edit" = false := by
          rw [has_save (cm.set_topic topic) topic "edit" "write" (clean_output wraw)
            (some writerRole) hcur ht]
          simp only [if_neg (by decide : ¬("edit" : String) = "write")]
          rw [set_topic_has cm topic "edit" ht]; exact he
        refine ⟨(cm.set_topic topic).save_checkpoint "write" (clean_output wraw)
          (some writerRole), [("write", ctxArg (some (storedOutput (cm.set_topic topic) "plan")))],
          clean_output wraw, ?_, ?_, ?_, ?_, ?_⟩
        · unfold run_with_retry_body
          rw [preRun_false, runStages_skip_plan _ _ h1,
            run_from_write_ok _ _ _ _ wraw h2 hwraw, hedit_run _ _ _ h3]
          simp
        · intro q task hq
          apply hasFor_save_mono
          rw [hasFor_set_topic]; exact hq
        · apply hasFor_save_mono
          rw [hasFor_set_topic]; exact hp
        · rw [hasFor_save (cm.set_topic topic) topic topic "write" "write"
            (clean_output wraw) (some writerRole) hcur]
          simp [ht]
        · rw [hasFor_save (cm.set_topic topic) topic topic "edit" "write"
            (clean_output wraw) (some writerRole) hcur]
          split
          · next hcond => exact absurd hcond.2.2 (by decide)
          · rw [hasFor_set_topic]; exact he
    · have hp2 : hasFor cm topic "plan" = false := by simpa using hp
      have h1 : (cm.set_topic topic).has_checkpoint "plan" = false := by
        rw [set_topic_has cm topic "plan" ht]; exact hp2
      obtain ⟨praw, hpraw⟩ := hP none
      have hcur : (cm.set_topic topic).current_topic = some topic := rfl
      have hcurP : ((cm.set_topic topic).save_checkpoint "plan" (clean_output praw)
          (some plannerRole)).current_topic = some topic := by
        rw [save_current]; exact hcur
      have hplanP : hasFor ((cm.set_topic topic).save_checkpoint "plan"
          (clean_output praw) (some plannerRole)) topic "plan" = true := by
        rw [hasFor_save (cm.set_topic topic) topic topic "plan" "plan"
          (clean_output praw) (some plannerRole) hcur]
        simp [ht]
      have heditP : hasFor ((cm.set_topic topic).save_checkpoint "plan"
          (clean_output praw) (some plannerRole)) topic "edit" = false := by
        rw [hasFor_save (cm.set_topic topic) topic topic "edit" "plan"
          (clean_output praw) (some plannerRole) hcur]
        split
        · next hcond => exact absurd hcond.2.2 (by decide)
        · rw [hasFor_set_topic]; exact he
      have heditC : ((cm.set_topic topic).save_checkpoint "plan" (clean_output praw)
          (some plannerRole)).has_checkpoint "edit" = false := by
        rw [has_checkpoint_eq_hasFor _ topic "edit" hcurP ht]
        exact heditP
      by_cases hw : hasFor cm topic "write" = true
      · have h2 : ((cm.set_topic topic).save_checkpoint "plan" (clean_output praw)
            (some plannerRole)).has_checkpoint "write" = true := by
          rw [has_save (cm.set_topic topic) topic "write" "plan" (clean_output praw)
            (some plannerRole) hcur ht]
          simp only [if_neg (by decide : ¬("write" : String) = "plan")]
          rw [set_topic_has cm topic "write" ht]; exact hw
        refine ⟨(cm.set_topic topic).save_checkpoint "plan" (clean_output praw)
          (some plannerRole), [("plan", none)],
          storedOutput ((cm.set_topic topic).save_checkpoint "plan"
            (clean_output praw) (some plannerRole)) "write", ?_, ?_, hplanP, ?_, heditP⟩
        · unfold run_with_retry_body
          rw [preRun_false, runStages_plan_ok _ _ praw h1 hpraw,
            run_from_write_skip _ _ _ _ h2, hedit_run _ _ _ heditC]
        · intro q task hq
          apply hasFor_save_mono
          rw [hasFor_set_topic]; exact hq
        · rw [hasFor_save (cm.set_topic topic) topic topic "write" "plan"
            (clean_output praw) (some plannerRole) hcur]
          split
          · rfl
          · rw [hasFor_set_topic]; exact hw
      · have hw2 : hasFor cm topic "write" = false := by simpa using hw
        have h2 : ((cm.set_topic topic).save_checkpoint "plan" (clean_output praw)
            (some plannerRole)).has_checkpoint "write" = false := by
          rw [has_save (cm.set_topic topic) topic "write" "plan" (clean_output praw)
            (some plannerRole) hcur ht]
          simp only [if_neg (by decide : ¬("write" : String) = "plan")]
          rw [set_topic_has cm topic "write" ht]; exact hw2
        obtain ⟨wraw, hwraw⟩ := hW (ctxArg (some (clean_output praw)))
        have hcurW : (((cm.set_topic topic).save_checkpoint "plan" (clean_output praw)
            (some plannerRole)).save_checkpoint "write" (clean_output wraw)
            (some writerRole)).current_topic = some topic := by
          rw [save_current]; exact hcurP
        have heditW : hasFor (((cm.set_topic topic).save_checkpoint "plan"
            (clean_output praw) (some plannerRole)).save_checkpoint "write"
            (clean_output wraw) (some writerRole)) topic "edit" = false := by
          rw [hasFor_save _ topic topic "edit" "write" (clean_output wraw)
            (some writerRole) hcurP]
          split
          · next hcond => exact absurd hcond.2.2 (by decide)
          · exact heditP
        have heditWC : (((cm.set_topic topic).save_checkpoint "plan"
            (clean_output praw) (some plannerRole)).save_checkpoint "write"
            (clean_output wraw) (some writerRole)).has_checkpoint "edit" = false := by
          rw [has_checkpoint_eq_hasFor _ topic "edit" hcurW ht]
          exact heditW
        refine ⟨((cm.set_topic topic).save_checkpoint "plan" (clean_output praw)
          (some plannerRole)).save_checkpoint "write" (clean_output wraw)
          (some writerRole),
          [("plan", none), ("write", ctxArg (some (clean_output praw)))],
          clean_output wraw, ?_, ?_, ?_, ?_, heditW⟩
        · unfold run_with_retry_body
          rw [preRun_false, runStages_plan_ok _ _ praw h1 hpraw,
            run_from_write_ok _ _ _ _ wraw h2 hwraw, hedit_run _ _ _ heditWC]
          simp
        · intro q task hq
          apply hasFor_save_mono
          apply hasFor_save_mono
          rw [hasFor_set_topic]; exact hq
        · apply hasFor_save_mono
          exact hplanP
        · rw [hasFor_save _ topic topic "write" "write" (clean_output wraw)
            (some writerRole) hcurP]
          simp [ht]
  obtain ⟨cmX, calls, w, hrun, hframe, hplanX, hwriteX, heditX⟩ := main
  rw [hrun]
  exact ⟨rfl, hframe, hplanX, hwriteX, heditX,
    fun exec2 => resume_first_edit cmX topic exec2 ht hplanX hwriteX heditX⟩

/-- C1: whenever the stage executor raises a non-rate-limit (indeed,
any) error at some stage — plan, write, or edit, with earlier stages
succeeding when invoked — `run_with_retry` (one attempt,
`forceRestart = false`, nonempty topic) propagates exactly that error,
invokes no executor for any later stage, leaves every checkpoint saved
before the failure intact (pre-existing ones and those saved during the
run), so that re-invoking it on the resulting state with
`forceRestart = false` starts execution exactly at the first stage
without a checkpoint; this holds for every error kind, not only
rate-limited. -/
theorem claim_C1 :
    (∀ (cm : CM) (topic : String) (exec : Exec) (e : ErrKind), topic ≠ "" →
      hasFor cm topic "plan" = false →
      (∀ c, exec "plan" c = ExecResult.err e) →
      (run_with_retry_body cm topic false exec).result = Except.error e ∧
        (run_with_retry_body cm topic false exec).calls.map Prod.fst = ["plan"] ∧
        (∀ q task, hasFor cm q task = true →
          hasFor (run_with_retry_body cm topic false exec).state q task = true) ∧
        hasFor (run_with_retry_body cm topic false exec).state topic "plan" = false ∧
        (∀ exec2 : Exec,
          ((run_with_retry_body (run_with_retry_body cm topic false exec).state
              topic false exec2).calls.map Prod.fst).head? = some "plan")) ∧
      (∀ (cm : CM) (topic : String) (exec : Exec) (e : ErrKind), topic ≠ "" →
        hasFor cm topic "write" = false →
        (∀ c, exec "write" c = ExecResult.err e) →
        (∀ c, ∃ raw, exec "plan" c = ExecResult.ok raw) →
        (run_with_retry_body cm topic false exec).result = Except.error e ∧
          "edit" ∉ (run_with_retry_body cm topic false exec).calls.map Prod.fst ∧
          (∀ q task, hasFor cm q task = true →
            hasFor (run_with_retry_body cm topic false exec).state q task = true) ∧
          hasFor (run_with_retry_body cm topic false exec).state topic "plan" = true ∧
          hasFor (run_with_retry_body cm topic false exec).state topic "write" = false ∧
          (∀ exec2 : Exec,
            ((run_with_retry_body (run_with_retry_body cm topic false exec).state
                topic false exec2).calls.map Prod.fst).head? = some "write")) ∧
      (∀ (cm : CM) (topic : String) (exec : Exec) (e : ErrKind), topic ≠ "" →
        hasFor cm topic "edit" = false →
        (∀ c, exec "edit" c = ExecResult.err e) →
        (∀ c, ∃ raw, exec "plan" c = ExecResult.ok raw) →
        (∀ c, ∃ raw, exec "write" c = ExecResult.ok raw) →
        (run_with_retry_body cm topic false exec).result = Except.error e ∧
          (∀ q task, hasFor cm q task = true →
            hasFor (run_with_retry_body cm topic false exec).state q task = true) ∧
          hasFor (run_with_retry_body cm topic false exec).state topic "plan" = true ∧
          hasFor (run_with_retry_body cm topic false exec).state topic "write" = true ∧
          hasFor (run_with_retry_body cm topic false exec).state topic "edit" = false ∧
          (∀ exec2 : Exec,
            ((run_with_retry_body (run_with_retry_body cm topic false exec).state
                topic false exec2).calls.map Prod.fst).head? = some "edit")) :=
  ⟨fun cm topic exec e ht hp hP => fatal_at_plan cm topic exec e ht hp hP,
    fun cm topic exec e ht hw hW hP => fatal_at_write cm topic exec e ht hw hW hP,
    fun cm topic exec e ht he hE hP hW => fatal_at_edit cm topic exec e ht he hE hP hW⟩

theorem claim_C1_witness :
    ("A" : String) ≠ "" ∧ hasFor CM.init "A" "write" = false ∧
      failWriteExec ErrKind.fatal "write" (some "ctx") =
        ExecResult.err ErrKind.fatal ∧
      failWriteExec ErrKind.fatal "plan" none = ExecResult.ok "plan raw" ∧
      (run_with_retry_body CM.init "A" false (failWriteExec ErrKind.fatal)).result =
        Except.error ErrKind.fatal ∧
      "edit" ∉ (run_with_retry_body CM.init "A" false
        (failWriteExec ErrKind.fatal)).calls.map Prod.fst ∧
      hasFor (run_with_retry_body CM.init "A" false
        (failWriteExec ErrKind.fatal)).state "A" "plan" = true ∧
      hasFor (run_with_retry_body CM.init "A" false
        (failWriteExec ErrKind.fatal)).state "A" "write" = false ∧
      ((run_with_retry_body (run_with_retry_body CM.init "A" false
          (failWriteExec ErrKind.fatal)).state "A" false
          demoExec).calls.map Prod.fst).head? = some "write" := by
  have h := claim_C1.2.1 CM.init "A" (failWriteExec ErrKind.fatal) ErrKind.fatal
    (by decide) (by decide) (fun c => rfl) (fun c => ⟨"plan raw", rfl⟩)
  exact ⟨by decide, by decide, rfl, rfl, h.1, h.2.1, h.2.2.2.1, h.2.2.2.2.1,
    h.2.2.2.2.2 demoExec⟩

theorem StoreInv_init : StoreInv CM.init := by
  intro tp
  constructor <;> intro h <;> simp [hasFor, CM.init] at h

theorem StoreInv_set_topic (cm : CM) (t : String) (h : StoreInv cm) :
    StoreInv (cm.set_topic t) := by
  intro tp
  simp only [hasFor_set_topic]
  exact h tp

theorem StoreInv_clear (cm : CM) (topic : Option String) (h : StoreInv cm) :
    StoreInv (cm.clear_checkpoints topic) := by
  rcases clear_checkpoints_cases cm topic with hc | ⟨t, ht, hc⟩
  · rw [hc]; exact h
  · rw [hc]
    intro tp
    by_cases hq : tp = t
    · subst hq
      constructor <;> intro hx <;> (unfold hasFor at hx; simp [mdel] at hx)
    · have hr : ∀ task, hasFor { cm with checkpoints := mdel cm.checkpoints t } tp task =
          hasFor cm tp task := by
        intro task
        unfold hasFor
        simp [mdel, hq]
      simp only [hr]
      exact h tp

theorem StoreInv_clear_all (cm : CM) : StoreInv cm.clear_all_checkpoints := by
  intro tp
  constructor <;> intro h <;> simp [hasFor, CM.clear_all_checkpoints] at h

theorem StoreInv_save_plan (cm : CM) (t out : String) (ag : Option String)
    (hc : cm.current_topic = some t) (h : StoreInv cm) :
    StoreInv (cm.save_checkpoint "plan" out ag) := by
  intro tp
  constructor
  · intro hx
    rw [hasFor_save cm t tp "write" "plan" out ag hc] at hx
    rw [hasFor_save cm t tp "plan" "plan" out ag hc]
    split
    · rfl
    · split at hx
      · next hcond => exact absurd hcond.2.2 (by decide)
      · exact (h tp).1 hx
  · intro hx
    rw [hasFor_save cm t tp "edit" "plan" out ag hc] at hx
    rw [hasFor_save cm t tp "write" "plan" out ag hc]
    split
    · rfl
    · split at hx
      · next hcond => exact absurd hcond.2.2 (by decide)
      · exact (h tp).2 hx

theorem StoreInv_save_write (cm : CM) (t out : String) (ag : Option String)
    (hc : cm.current_topic = some t)
    (hplan : t ≠ "" → hasFor cm t "plan" = true) (h : StoreInv cm) :
    StoreInv (cm.save_checkpoint "write" out ag) := by
  intro tp
  constructor
  · intro hx
    rw [hasFor_save cm t tp "write" "write" out ag hc] at hx
    rw [hasFor_save cm t tp "plan" "write" out ag hc]
    split
    · rfl
    · split at hx
      · next hcond =>
        rcases hcond with ⟨htne, htp, _⟩
        subst htp
        exact hplan htne
      · exact (h tp).1 hx
  · intro hx
    rw [hasFor_save cm t tp "edit" "write" out ag hc] at hx
    rw [hasFor_save cm t tp "write" "write" out ag hc]
    split
    · rfl
    · split at hx
      · next hcond => exact absurd hcond.2.2 (by decide)
      · exact (h tp).2 hx

theorem StoreInv_save_edit (cm : CM) (t out : String) (ag : Option String)
    (hc : cm.current_topic = some t)
    (hwrite : t ≠ "" → hasFor cm t "write" = true) (h : StoreInv cm) :
    StoreInv (cm.save_checkpoint "edit" out ag) := by
  intro tp
  constructor
  · intro hx
    rw [hasFor_save cm t tp "write" "edit" out ag hc] at hx
    rw [hasFor_save cm t tp "plan" "edit" out ag hc]
    split
    · rfl
    · split at hx
      · next hcond => exact absurd hcond.2.2 (by decide)
      · exact (h tp).1 hx
  · intro hx
    rw [hasFor_save cm t tp "edit" "edit" out ag hc] at hx
    rw [hasFor_save cm t tp "write" "edit" out ag hc]
    split
    · rfl
    · split at hx
      · next hcond =>
        rcases hcond with ⟨htne, htp, _⟩
        subst htp
        exact hwrite htne
      · exact (h tp).2 hx

theorem run_from_edit_inv (cm : CM) (topic : String) (exec : Exec)
    (calls : List Call) (w : String) (hc : cm.current_topic = some topic)
    (hInv : StoreInv cm) (hw : topic ≠ "" → hasFor cm topic "write" = true) :
    StoreInv (run_from_edit cm calls w exec).state := by
  by_cases h : cm.has_checkpoint "edit" = true
  · rw [run_from_edit_skip _ _ _ _ h]; exact hInv
  · have h2 : cm.has_checkpoint "edit" = false := by simpa using h
    rcases hx : exec "edit" (ctxArg (some w)) with raw | e
    · rw [run_from_edit_ok _ _ _ _ raw h2 hx]
      exact StoreInv_save_edit cm topic _ _ hc hw hInv
    · rw [run_from_edit_err _ _ _ _ e h2 hx]; exact hInv

theorem run_from_write_inv (cm : CM) (topic : String) (exec : Exec)
    (calls : List Call) (p : String) (hc : cm.current_topic = some topic)
    (hInv : StoreInv cm) (hp : topic ≠ "" → hasFor cm topic "plan" = true) :
    StoreInv (run_from_write cm calls p exec).state := by
  by_cases h : cm.has_checkpoint "write" = true
  · rw [run_from_write_skip _ _ _ _ h]
    have hw : topic ≠ "" → hasFor cm topic "write" = true := by
      intro _
      obtain ⟨t, hct, htne, hh⟩ := has_checkpoint_topic cm "write" h
      rw [hc] at hct
      injection hct with heq
      subst heq
      exact hh
    exact run_from_edit_inv cm topic exec calls _ hc hInv hw
  · have h2 : cm.has_checkpoint "write" = false := by simpa using h
    rcases hx : exec "write" (ctxArg (some p)) with raw | e
    · rw [run_from_write_ok _ _ _ _ raw h2 hx]
      have hcW : (cm.save_checkpoint "write" (clean_output raw)
          (some writerRole)).current_topic = some topic := by
        rw [save_current]; exact hc
      apply run_from_edit_inv _ topic exec _ _ hcW
        (StoreInv_save_write cm topic _ _ hc hp hInv)
      intro htne
      rw [hasFor_save cm topic topic "write" "write" _ _ hc]
      simp [htne]
    · rw [run_from_write_err _ _ _ _ e h2 hx]; exact hInv

theorem runStages_inv (cm1 : CM) (topic : String) (exec : Exec)
    (hc : cm1.current_topic = some topic) (hInv : StoreInv cm1) :
    StoreInv (runStages cm1 exec).state := by
  by_cases h : cm1.has_checkpoint "plan" = true
  · rw [runStages_skip_plan _ _ h]
    have hp : topic ≠ "" → hasFor cm1 topic "plan" = true := by
      intro _
      obtain ⟨t, hct, htne, hh⟩ := has_checkpoint_topic cm1 "plan" h
      rw [hc] at hct
      injection hct with heq
      subst heq
      exact hh
    exact run_from_write_inv cm1 topic exec [] _ hc hInv hp
  · have h2 : cm1.has_checkpoint "plan" = false := by simpa using h
    rcases hx : exec "plan" none with raw | e
    · rw [runStages_plan_ok _ _ raw h2 hx]
      have hcP : (cm1.save_checkpoint "plan" (clean_output raw)
          (some plannerRole)).current_topic = some topic := by
        rw [save_current]; exact hc
      apply run_from_write_inv _ topic exec _ _ hcP
        (StoreInv_save_plan cm1 topic _ _ hc hInv)
      intro htne
      rw [hasFor_save cm1 topic topic "plan" "plan" _ _ hc]
      simp [htne]
    · rw [runStages_plan_err _ _ e h2 hx]; exact hInv

/-- C7: checkpoints are written in strict stage-sequence order: every
store state produced only by runs, clears and topic switches from the
initial store satisfies the ordering invariant (a checkpoint for stage k
implies checkpoints for every earlier stage j < k of that topic), and
one run attempt preserves the invariant from any invariant state — since
the run is quantified over every executor behavior, the states reached
at failures are exactly the mid-run states, so the invariant holds at
every point during and after a run.  Clears remove a whole topic at
once, which is how "held before an intervening clear" is reflected. -/
theorem claim_C7 :
    (∀ cm, Reachable cm → StoreInv cm) ∧
      (∀ (cm : CM) (topic : String) (force : Bool) (exec : Exec),
        StoreInv cm → StoreInv (run_with_retry_body cm topic force exec).state) := by
  have hbody : ∀ (cm : CM) (topic : String) (force : Bool) (exec : Exec),
      StoreInv cm → StoreInv (run_with_retry_body cm topic force exec).state := by
    intro cm topic force exec h
    unfold run_with_retry_body
    apply runStages_inv _ topic exec (preRun_current cm topic force)
    unfold preRun
    cases force
    · simpa using StoreInv_set_topic cm topic h
    · simp only [if_true]
      exact StoreInv_clear _ _ (StoreInv_set_topic cm topic h)
  constructor
  · intro cm hr
    induction hr with
    | init => exact StoreInv_init
    | run cm2 topic force exec hr2 ih => exact hbody _ _ _ _ ih
    | clear cm2 topic hr2 ih => exact StoreInv_clear _ _ ih
    | clearAll cm2 hr2 ih => exact StoreInv_clear_all _
    | setTopic cm2 topic hr2 ih => exact StoreInv_set_topic _ _ ih
  · exact hbody

theorem claim_C7_witness :
    StoreInv CM.init ∧
      StoreInv (run_with_retry_body CM.init "A" false demoExec).state :=
  ⟨claim_C7.1 CM.init Reachable.init,
    claim_C7.2 CM.init "A" false demoExec (claim_C7.1 CM.init Reachable.init)⟩

/-- C4 counterexample: with an executor that always raises
`RateLimitError`, the decorated runner performs 5 attempts and sleeps
`[4, 4, 8, 16]` seconds between them (tenacity clamps
`multiplier * 2 ^ (attempt - 1)` from below by `min_wait`), while the
claim's formula `min(max_wait, min_wait * multiplier^(attempt-1))`
predicts `[4, 8, 16, 32]`: from attempt 2 on the two disagree. -/
theorem claim_C4_counterexample :
    (run_with_retry CM.init "T" false
        (fun _ => fun _ _ => ExecResult.err ErrKind.rateLimited)).2.2.2 =
      [4, 4, 8, 16] ∧
      [specWait 1, specWait 2, specWait 3, specWait 4] = [4, 8, 16, 32] ∧
      (run_with_retry CM.init "T" false
        (fun _ => fun _ _ => ExecResult.err ErrKind.rateLimited)).2.2.2 ≠
        [specWait 1, specWait 2, specWait 3, specWait 4] := by decide

theorem retryFrom_spec (topic : String) (force : Bool) (exec : Nat → Exec)
    (cm0 : CM) :
    ∀ fuel a (o : CM × Except ErrKind String × Nat × List Nat),
      a + 1 ≤ RETRY_MAX_ATTEMPTS →
      a + 1 + fuel = RETRY_MAX_ATTEMPTS + 1 →
      retryFrom topic force exec fuel (a + 1)
        (attemptState cm0 topic force exec a) = o →
      (a + 1 ≤ o.2.2.1 ∧ o.2.2.1 ≤ RETRY_MAX_ATTEMPTS) ∧
        o.2.2.2 = (List.range' (a + 1) (o.2.2.1 - (a + 1))).map tenacity_wait ∧
        (∀ k, a + 1 ≤ k → k < o.2.2.1 →
          (run_with_retry_body (attemptState cm0 topic force exec (k - 1))
            topic force (exec k)).result = Except.error ErrKind.rateLimited) ∧
        o.1 = attemptState cm0 topic force exec o.2.2.1 ∧
        o.2.1 = (run_with_retry_body
          (attemptState cm0 topic force exec (o.2.2.1 - 1)) topic force
          (exec o.2.2.1)).result := by
  intro fuel
  induction fuel with
  | zero =>
    intro a o h5 hsum ho
    exact absurd hsum (by omega)
  | succ fuel ih =>
    intro a o h5 hsum ho
    simp only [retryFrom] at ho
    cases hres : (run_with_retry_body (attemptState cm0 topic force exec a)
        topic force (exec (a + 1))).result with
    | ok s =>
      rw [hres] at ho
      dsimp only at ho
      subst ho
      dsimp only
      refine ⟨⟨le_refl _, h5⟩, ?_, ?_, ?_, ?_⟩
      · simp
      · intro k hk1 hk2
        omega
      · rfl
      · simp only [Nat.add_sub_cancel]
        rw [hres]
    | error e =>
      rw [hres] at ho
      dsimp only at ho
      cases e with
      | rateLimited =>
        rw [if_pos rfl] at ho
        by_cases hstop : RETRY_MAX_ATTEMPTS ≤ a + 1
        · rw [if_pos hstop] at ho
          subst ho
          dsimp only
          refine ⟨⟨le_refl _, h5⟩, ?_, ?_, ?_, ?_⟩
          · simp
          · intro k hk1 hk2
            omega
          · rfl
          · simp only [Nat.add_sub_cancel]
            rw [hres]
        · rw [if_neg hstop] at ho
          have hstate : (run_with_retry_body (attemptState cm0 topic force exec a)
              topic force (exec (a + 1))).state =
              attemptState cm0 topic force exec (a + 1) := rfl
          rw [hstate] at ho
          have hrest := ih (a + 1)
            (retryFrom topic force exec fuel (a + 1 + 1)
              (attemptState cm0 topic force exec (a + 1)))
            (by omega) (by omega) rfl
          obtain ⟨⟨hr1, hr2⟩, hrw, hrk, hrs, hrr⟩ := hrest
          subst ho
          dsimp only
          refine ⟨⟨by omega, hr2⟩, ?_, ?_, hrs, hrr⟩
          · have hn : (retryFrom topic force exec fuel (a + 1 + 1)
                (attemptState cm0 topic force exec (a + 1))).2.2.1 - (a + 1) =
                ((retryFrom topic force exec fuel (a + 1 + 1)
                  (attemptState cm0 topic force exec (a + 1))).2.2.1 -
                  (a + 1 + 1)) + 1 := by omega
            rw [hn, List.range'_succ, List.map_cons, hrw]
          · intro k hk1 hk2
            by_cases hk : k = a + 1
            · subst hk
              simp only [Nat.add_sub_cancel]
              rw [hres]
            · exact hrk k (by omega) hk2
      | fatal =>
        rw [if_neg (by decide)] at ho
        subst ho
        dsimp only
        refine ⟨⟨le_refl _, h5⟩, ?_, ?_, ?_, ?_⟩
        · simp
        · intro k hk1 hk2
          omega
        · rfl
        · simp only [Nat.add_sub_cancel]
          rw [hres]

/-- C4 (amended): the tenacity decorator re-invokes the whole run only
when the raised error is a `RateLimitError` (every non-final attempt
ended rate-limited), performs between 1 and `RETRY_MAX_ATTEMPTS = 5`
attempts, waits `max(min_wait, min(multiplier * 2^(attempt-1),
max_wait))` seconds after failed attempt number `attempt` (with
`min_wait = 4`, `max_wait = 120`, `multiplier = 2`, so 4, 4, 8, 16 —
not `min(max_wait, min_wait * multiplier^(attempt-1))` as the claim
states), aborts immediately on any other error classification, and
returns the final attempt's result and state. -/
theorem claim_C4_amended (cm : CM) (topic : String) (force : Bool)
    (exec : Nat → Exec) :
    (1 ≤ (run_with_retry cm topic force exec).2.2.1 ∧
      (run_with_retry cm topic force exec).2.2.1 ≤ RETRY_MAX_ATTEMPTS) ∧
      (run_with_retry cm topic force exec).2.2.2 =
        (List.range' 1 ((run_with_retry cm topic force exec).2.2.1 - 1)).map
          tenacity_wait ∧
      (∀ k, 1 ≤ k → k < (run_with_retry cm topic force exec).2.2.1 →
        (run_with_retry_body (attemptState cm topic force exec (k - 1)) topic
          force (exec k)).result = Except.error ErrKind.rateLimited) ∧
      (run_with_retry cm topic force exec).1 =
        attemptState cm topic force exec (run_with_retry cm topic force exec).2.2.1 ∧
      (run_with_retry cm topic force exec).2.1 =
        (run_with_retry_body
          (attemptState cm topic force exec
            ((run_with_retry cm topic force exec).2.2.1 - 1)) topic force
          (exec (run_with_retry cm topic force exec).2.2.1)).result :=
  retryFrom_spec topic force exec cm RETRY_MAX_ATTEMPTS 0
    (run_with_retry cm topic force exec) (by decide) (by decide) rfl

theorem claim_C4_witness :
    (1 ≤ (run_with_retry CM.init "T" false
        (fun _ => fun _ _ => ExecResult.err ErrKind.rateLimited)).2.2.1 ∧
      (run_with_retry CM.init "T" false
        (fun _ => fun _ _ => ExecResult.err ErrKind.rateLimited)).2.2.1 ≤
        RETRY_MAX_ATTEMPTS) ∧
      (run_with_retry CM.init "T" false
        (fun _ => fun _ _ => ExecResult.err ErrKind.rateLimited)).2.2.2 =
        (List.range' 1 ((run_with_retry CM.init "T" false
          (fun _ => fun _ _ => ExecResult.err ErrKind.rateLimited)).2.2.1 - 1)).map
          tenacity_wait :=
  ⟨(claim_C4_amended CM.init "T" false
      (fun _ => fun _ _ => ExecResult.err ErrKind.rateLimited)).1,
    (claim_C4_amended CM.init "T" false
      (fun _ => fun _ _ => ExecResult.err ErrKind.rateLimited)).2.1⟩

/-! ## Sanitizer lemmas -/

theorem subThinkF_nil : ∀ f, subThinkF f [] = [] := by
  intro f
  cases f <;> rfl

theorem subTagsF_nil : ∀ f, subTagsF f [] = [] := by
  intro f
  cases f <;> rfl

/-- The fuel of `subThinkF` is irrelevant as long as it covers the input
length. -/
theorem subThinkF_congr : ∀ (f : Nat) (l : List Char) (g : Nat),
    l.length ≤ f → l.length ≤ g → subThinkF f l = subThinkF g l := by
  intro f
  induction f with
  | zero =>
    intro l g h1 h2
    have hl : l = [] := List.eq_nil_of_length_eq_zero (Nat.le_zero.mp h1)
    subst hl
    rw [subThinkF_nil, subThinkF_nil]
  | succ f ih =>
    intro l g h1 h2
    cases l with
    | nil => rw [subThinkF_nil, subThinkF_nil]
    | cons c cs =>
      cases g with
      | zero => simp at h2
      | succ g =>
        simp only [subThinkF]
        by_cases hm : matchesCI thinkOpen (c :: cs) = true
        · rw [if_pos hm, if_pos hm]
          cases hd : dropAfterClose (List.drop 6 cs) with
          | some rest =>
            have hr := dropAfterClose_length _ _ hd
            have hdl : (List.drop 6 cs).length = cs.length - 6 := List.length_drop 6 cs
            simp only [List.length_cons] at h1 h2
            exact ih rest g (by omega) (by omega)
          | none =>
            simp only [List.length_cons] at h1 h2
            rw [ih cs g (by omega) (by omega)]
        · rw [if_neg hm, if_neg hm]
          simp only [List.length_cons] at h1 h2
          rw [ih cs g (by omega) (by omega)]

theorem subTagsF_congr : ∀ (f : Nat) (l : List Char) (g : Nat),
    l.length ≤ f → l.length ≤ g → subTagsF f l = subTagsF g l := by
  intro f
  induction f with
  | zero =>
    intro l g h1 h2
    have hl : l = [] := List.eq_nil_of_length_eq_zero (Nat.le_zero.mp h1)
    subst hl
    rw [subTagsF_nil, subTagsF_nil]
  | succ f ih =>
    intro l g h1 h2
    cases l with
    | nil => rw [subTagsF_nil, subTagsF_nil]
    | cons c cs =>
      cases g with
      | zero => simp at h2
      | succ g =>
        simp only [subTagsF]
        simp only [List.length_cons] at h1 h2
        by_cases hm : matchesCI thinkClose (c :: cs) = true
        · rw [if_pos hm, if_pos hm]
          exact ih _ g (by simp [List.length_drop]; omega) (by simp [List.length_drop]; omega)
        · rw [if_neg hm, if_neg hm]
          by_cases hm2 : matchesCI thinkOpen (c :: cs) = true
          · rw [if_pos hm2, if_pos hm2]
            exact ih _ g (by simp [List.length_drop]; omega) (by simp [List.length_drop]; omega)
          · rw [if_neg hm2, if_neg hm2]
            rw [ih cs g (by omega) (by omega)]

/-- `ciEq` at the non-letter pattern character `<` is plain equality. -/
theorem ciEq_lt_false (c : Char) (hc : c ≠ '<') : ciEq '<' c = false := by
  unfold ciEq
  have h1 : decide (c = '<') = false := decide_eq_false hc
  have h2 : decide ('a' ≤ '<') = false := by decide
  rw [h1, h2]
  simp

theorem open_match_head (c : Char) (cs : List Char) (hc : c ≠ '<') :
    matchesCI thinkOpen (c :: cs) = false := by
  simp only [thinkOpen, matchesCI]
  rw [ciEq_lt_false c hc]
  simp

theorem close_match_head (c : Char) (cs : List Char) (hc : c ≠ '<') :
    matchesCI thinkClose (c :: cs) = false := by
  simp only [thinkClose, matchesCI]
  rw [ciEq_lt_false c hc]
  simp

theorem subThink_cons_nomatch (c : Char) (l : List Char) (hc : c ≠ '<') :
    subThink (c :: l) = c :: subThink l := by
  unfold subThink
  simp only [List.length_cons, subThinkF]
  rw [if_neg (by rw [open_match_head c l hc]; simp)]

theorem subThink_id (l : List Char) (h : '<' ∉ l) : subThink l = l := by
  induction l with
  | nil => rfl
  | cons c cs ih =>
    have hc : c ≠ '<' := fun hh => h (hh ▸ List.mem_cons_self c cs)
    rw [subThink_cons_nomatch c cs hc, ih (fun hm => h (List.mem_cons_of_mem c hm))]

theorem subThink_append (pre rest : List Char) (h : '<' ∉ pre) :
    subThink (pre ++ rest) = pre ++ subThink rest := by
  induction pre with
  | nil => simp
  | cons c pre ih =>
    have hc : c ≠ '<' := fun hh => h (hh ▸ List.mem_cons_self c pre)
    rw [List.cons_append, subThink_cons_nomatch c _ hc,
      ih (fun hm => h (List.mem_cons_of_mem c hm)), List.cons_append]

theorem subTags_cons_nomatch (c : Char) (l : List Char) (hc : c ≠ '<') :
    subTags (c :: l) = c :: subTags l := by
  unfold subTags
  simp only [List.length_cons, subTagsF]
  rw [if_neg (by rw [close_match_head c l hc]; simp),
    if_neg (by rw [open_match_head c l hc]; simp)]

theorem subTags_append (pre rest : List Char) (h : '<' ∉ pre) :
    subTags (pre ++ rest) = pre ++ subTags rest := by
  induction pre with
  | nil => simp
  | cons c pre ih =>
    have hc : c ≠ '<' := fun hh => h (hh ▸ List.mem_cons_self c pre)
    rw [List.cons_append, subTags_cons_nomatch c _ hc,
      ih (fun hm => h (List.mem_cons_of_mem c hm)), List.cons_append]

theorem matchesCI_open_refl (l : List Char) :
    matchesCI thinkOpen ('<' :: 't' :: 'h' :: 'i' :: 'n' :: 'k' :: '>' :: l) = true := by
  simp [thinkOpen, matchesCI, ciEq]

theorem matchesCI_close_refl (l : List Char) :
    matchesCI thinkClose ('<' :: '/' :: 't' :: 'h' :: 'i' :: 'n' :: 'k' :: '>' :: l) = true := by
  simp [thinkClose, matchesCI, ciEq]

theorem matchesCI_close_of_open (l : List Char) :
    matchesCI thinkClose ('<' :: 't' :: 'h' :: 'i' :: 'n' :: 'k' :: '>' :: l) = false := by
  simp [thinkOpen, thinkClose, matchesCI, ciEq]

/-- One-step equation of `dropAfterClose`. -/
theorem dropAfterClose_cons (c : Char) (cs : List Char) :
    dropAfterClose (c :: cs) =
      if matchesCI thinkClose (c :: cs) then some (List.drop 7 cs)
      else dropAfterClose cs := rfl

/-- One-step equation of `subThinkF`. -/
theorem subThinkF_cons (f : Nat) (c : Char) (cs : List Char) :
    subThinkF (f + 1) (c :: cs) =
      if matchesCI thinkOpen (c :: cs) then
        match dropAfterClose (List.drop 6 cs) with
        | some rest => subThinkF f rest
        | none => c :: subThinkF f cs
      else c :: subThinkF f cs := rfl

/-- One-step equation of `subTagsF`. -/
theorem subTagsF_cons (f : Nat) (c : Char) (cs : List Char) :
    subTagsF (f + 1) (c :: cs) =
      if matchesCI thinkClose (c :: cs) then subTagsF f (List.drop 7 cs)
      else if matchesCI thinkOpen (c :: cs) then subTagsF f (List.drop 6 cs)
      else c :: subTagsF f cs := rfl

theorem dropAfterClose_mid (mid post : List Char) (h : '<' ∉ mid) :
    dropAfterClose (mid ++ ('<' :: '/' :: 't' :: 'h' :: 'i' :: 'n' :: 'k' :: '>' :: post)) =
      some post := by
  induction mid with
  | nil =>
    rw [List.nil_append, dropAfterClose_cons, if_pos (matchesCI_close_refl post)]
    rfl
  | cons c mid ih =>
    have hc : c ≠ '<' := fun hh => h (hh ▸ List.mem_cons_self c mid)
    rw [List.cons_append, dropAfterClose_cons,
      if_neg (by rw [close_match_head c _ hc]; simp)]
    exact ih (fun hm => h (List.mem_cons_of_mem c hm))

theorem dropAfterClose_none (l : List Char) (h : '<' ∉ l) :
    dropAfterClose l = none := by
  induction l with
  | nil => rfl
  | cons c cs ih =>
    have hc : c ≠ '<' := fun hh => h (hh ▸ List.mem_cons_self c cs)
    rw [dropAfterClose_cons, if_neg (by rw [close_match_head c _ hc]; simp)]
    exact ih (fun hm => h (List.mem_cons_of_mem c hm))

theorem subThink_block (mid post : List Char) (hmid : '<' ∉ mid) :
    subThink ('<' :: 't' :: 'h' :: 'i' :: 'n' :: 'k' :: '>' ::
      (mid ++ ('<' :: '/' :: 't' :: 'h' :: 'i' :: 'n' :: 'k' :: '>' :: post))) =
      subThink post := by
  have hstep : ∀ f, subThinkF (f + 1) ('<' :: 't' :: 'h' :: 'i' :: 'n' :: 'k' :: '>' ::
      (mid ++ ('<' :: '/' :: 't' :: 'h' :: 'i' :: 'n' :: 'k' :: '>' :: post))) =
      subThinkF f post := by
    intro f
    rw [subThinkF_cons, if_pos (matchesCI_open_refl _)]
    have hdrop : List.drop 6 ('t' :: 'h' :: 'i' :: 'n' :: 'k' :: '>' ::
        (mid ++ ('<' :: '/' :: 't' :: 'h' :: 'i' :: 'n' :: 'k' :: '>' :: post))) =
        mid ++ ('<' :: '/' :: 't' :: 'h' :: 'i' :: 'n' :: 'k' :: '>' :: post) := rfl
    rw [hdrop, dropAfterClose_mid mid post hmid]
  unfold subThink
  rw [List.length_cons, hstep]
  apply subThinkF_congr
  · simp [List.length_append]
    omega
  · exact le_refl _

theorem subThink_lone_open (post : List Char) (hpost : '<' ∉ post) :
    subThink ('<' :: 't' :: 'h' :: 'i' :: 'n' :: 'k' :: '>' :: post) =
      '<' :: 't' :: 'h' :: 'i' :: 'n' :: 'k' :: '>' :: post := by
  unfold subThink
  rw [List.length_cons, subThinkF_cons, if_pos (matchesCI_open_refl post)]
  have hdrop : List.drop 6 ('t' :: 'h' :: 'i' :: 'n' :: 'k' :: '>' :: post) = post := rfl
  rw [hdrop, dropAfterClose_none post hpost]
  have htail : subThinkF ('t' :: 'h' :: 'i' :: 'n' :: 'k' :: '>' :: post).length
      ('t' :: 'h' :: 'i' :: 'n' :: 'k' :: '>' :: post) =
      't' :: 'h' :: 'i' :: 'n' :: 'k' :: '>' :: post := by
    show subThink ('t' :: 'h' :: 'i' :: 'n' :: 'k' :: '>' :: post) = _
    refine subThink_id _ ?_
    intro hm
    simp only [List.mem_cons] at hm
    rcases hm with h1 | h1 | h1 | h1 | h1 | h1 | h1
    · exact absurd h1 (by decide)
    · exact absurd h1 (by decide)
    · exact absurd h1 (by decide)
    · exact absurd h1 (by decide)
    · exact absurd h1 (by decide)
    · exact absurd h1 (by decide)
    · exact hpost h1
  rw [htail]

theorem subTags_close (l : List Char) :
    subTags ('<' :: '/' :: 't' :: 'h' :: 'i' :: 'n' :: 'k' :: '>' :: l) = subTags l := by
  unfold subTags
  rw [List.length_cons, subTagsF_cons, if_pos (matchesCI_close_refl l)]
  have hdrop : List.drop 7 ('/' :: 't' :: 'h' :: 'i' :: 'n' :: 'k' :: '>' :: l) = l := rfl
  rw [hdrop]
  apply subTagsF_congr
  · simp
    omega
  · exact le_refl _

theorem subTags_open (l : List Char) :
    subTags ('<' :: 't' :: 'h' :: 'i' :: 'n' :: 'k' :: '>' :: l) = subTags l := by
  unfold subTags
  rw [List.length_cons, subTagsF_cons,
    if_neg (by rw [matchesCI_close_of_open l]; simp),
    if_pos (matchesCI_open_refl l)]
  have hdrop : List.drop 6 ('t' :: 'h' :: 'i' :: 'n' :: 'k' :: '>' :: l) = l := rfl
  rw [hdrop]
  apply subTagsF_congr
  · simp
    omega
  · exact le_refl _

theorem toList_append (a b : String) :
    (a ++ b).toList = a.toList ++ b.toList := String.data_append a b

/-- A `<` that opens no `<think>` marker (second character differs from
`t` case-insensitively) is copied unchanged by the first pass. -/
theorem subThink_cons_lt_nomatch (c2 : Char) (l : List Char)
    (hc2 : ciEq 't' c2 = false) :
    subThink ('<' :: c2 :: l) = '<' :: subThink (c2 :: l) := by
  unfold subThink
  rw [List.length_cons, subThinkF_cons,
    if_neg (by simp only [thinkOpen, matchesCI]; rw [hc2]; simp)]

theorem big_toList (pre mid post : String) :
    (pre ++ "<think>" ++ mid ++ "</think>" ++ post).toList =
      pre.toList ++ ('<' :: 't' :: 'h' :: 'i' :: 'n' :: 'k' :: '>' ::
        (mid.toList ++ ('<' :: '/' :: 't' :: 'h' :: 'i' :: 'n' :: 'k' :: '>' ::
          post.toList))) := by
  rw [toList_append, toList_append, toList_append, toList_append]
  rw [show ("<think>" : String).toList = ['<', 't', 'h', 'i', 'n', 'k', '>'] from by decide]
  rw [show ("</think>" : String).toList = ['<', '/', 't', 'h', 'i', 'n', 'k', '>'] from by decide]
  simp [List.append_assoc]

/-- C5: the sanitizer removes every delimited internal-reasoning block
(`<think>...</think>`, case-insensitive, spanning multiple lines)
including the markers (stated for blocks whose prefix and body contain
no `<`, which pins down the leftmost non-greedy match), strips a lone
unbalanced close marker and a lone unbalanced open marker, collapses
three-or-more consecutive newlines to one blank line, and trims leading
and trailing whitespace; in particular
`"before<think>secret</think>after"` sanitizes to `"beforeafter"`. -/
theorem claim_C5 :
    (∀ pre mid post : String, '<' ∉ pre.toList → '<' ∉ mid.toList →
      clean_output (pre ++ "<think>" ++ mid ++ "</think>" ++ post) =
        clean_output (pre ++ post)) ∧
      (∀ pre post : String, '<' ∉ pre.toList →
        clean_output (pre ++ "</think>" ++ post) = clean_output (pre ++ post)) ∧
      (∀ pre post : String, '<' ∉ pre.toList → '<' ∉ post.toList →
        clean_output (pre ++ "<think>" ++ post) = clean_output (pre ++ post)) ∧
      clean_output "before<think>secret</think>after" = "beforeafter" ∧
      clean_output "x</think>y" = "xy" ∧
      clean_output "A<THINK>\nmulti\nline\n</thinK>B" = "AB" ∧
      clean_output "a\n\n\n\nb" = "a\n\nb" ∧
      clean_output "  x  " = "x" := by
  refine ⟨?_, ?_, ?_, by decide, by decide, by decide, by decide, by decide⟩
  · intro pre mid post hpre hmid
    unfold clean_output cleanChars
    congr 1
    congr 1
    congr 1
    congr 1
    rw [big_toList, subThink_append _ _ hpre,
      subThink_block mid.toList post.toList hmid, toList_append,
      subThink_append _ _ hpre]
  · intro pre post hpre
    unfold clean_output cleanChars
    congr 1
    congr 1
    congr 1
    have h1 : (pre ++ "</think>" ++ post).toList =
        pre.toList ++ ('<' :: '/' :: 't' :: 'h' :: 'i' :: 'n' :: 'k' :: '>' ::
          post.toList) := by
      rw [toList_append, toList_append,
        show ("</think>" : String).toList = ['<', '/', 't', 'h', 'i', 'n', 'k', '>'] from by decide]
      simp
    have h2 : subThink ('<' :: '/' :: 't' :: 'h' :: 'i' :: 'n' :: 'k' :: '>' ::
        post.toList) = '<' :: '/' :: 't' :: 'h' :: 'i' :: 'n' :: 'k' :: '>' ::
        subThink post.toList := by
      rw [subThink_cons_lt_nomatch '/' _ (by decide)]
      rw [show ('/' :: 't' :: 'h' :: 'i' :: 'n' :: 'k' :: '>' :: post.toList) =
        ['/', 't', 'h', 'i', 'n', 'k', '>'] ++ post.toList from rfl]
      rw [subThink_append ['/', 't', 'h', 'i', 'n', 'k', '>'] post.toList (by decide)]
      rfl
    rw [h1, subThink_append _ _ hpre, h2, toList_append, subThink_append _ _ hpre,
      subTags_append _ _ hpre, subTags_append _ _ hpre, subTags_close]
  · intro pre post hpre hpost
    unfold clean_output cleanChars
    congr 1
    congr 1
    congr 1
    have h1 : (pre ++ "<think>" ++ post).toList =
        pre.toList ++ ('<' :: 't' :: 'h' :: 'i' :: 'n' :: 'k' :: '>' ::
          post.toList) := by
      rw [toList_append, toList_append,
        show ("<think>" : String).toList = ['<', 't', 'h', 'i', 'n', 'k', '>'] from by decide]
      simp
    rw [h1, subThink_append _ _ hpre, subThink_lone_open post.toList hpost,
      toList_append, subThink_append _ _ hpre, subThink_id post.toList hpost,
      subTags_append _ _ hpre, subTags_append _ _ hpre, subTags_open]

theorem claim_C5_witness :
    ('<' ∉ ("p" : String).toList) ∧ ('<' ∉ ("s" : String).toList) ∧
      clean_output ("p" ++ "<think>" ++ "s" ++ "</think>" ++ "q") =
        clean_output ("p" ++ "q") :=
  ⟨by decide, by decide, claim_C5.1 "p" "s" "q" (by decide) (by decide)⟩

theorem claim_C8_witness :
    (CM.init.get_latest_completed_task = latestCompletedStage CM.init ∧
      (CM.init.current_topic = none → CM.init.get_latest_completed_task = none)) ∧
      CM.init.current_topic = none ∧ CM.init.get_latest_completed_task = none :=
  ⟨claim_C8 CM.init, rfl, (claim_C8 CM.init).2 rfl⟩
